import Mathlib

/-!
# Verification of the `hawk-pack` HNSW core

A shallow embedding of the HNSW searcher of the `hawk-pack` repository
(`src/hnsw_db.rs`, `src/hnsw_db/queue.rs`, `src/graph_store/graph_mem.rs`,
`src/lib.rs`) together with proofs about the claims of its specification.

Modelling conventions:

* Rust panics (`assert!`, `expect`, out-of-bounds `Vec` indexing) are modelled
  by `none` in the `TraceM` monad below; a `some` result carries the returned
  value together with the ordered list of backend calls (`Call`) issued during
  the operation, so that claims about the sequence of backend calls can be
  stated directly.
* The `VectorStore` backend is modelled by pure functions (`Store`): the
  searcher operations under study never call `VectorStore::insert`, and the
  spec requires backends to be deterministic per `(query, vector)` pair, so
  `eval_distance`, `less_than` and `is_match` are functions of their
  arguments.
* The AES-based RNG of `select_layer` draws an `f64` and maps it through
  `(-ln(r) * m_L) as usize`; floating point is outside the embedding, so the
  searcher carries the induced deterministic stream of chosen levels
  (`rngStream`) and a position (`rngPos`), and `select_layer` consumes exactly
  one draw, as the code consumes exactly one `gen::<f64>()`.
* `HashSet`/`HashMap` are modelled by lists with membership / association-list
  semantics; the Rust code never iterates over them (only inserts and lookups),
  so this is observationally faithful.
* The unbounded `while` loop of `search_layer` takes a fuel parameter; running
  out of fuel is modelled as `none`, so every `some` result corresponds to a
  real terminating run of the loop.
-/

/-- Writer-over-`Option` monad: `none` models a Rust panic, a `some` result
carries the value and the ordered trace of backend calls. -/
abbrev TraceM (C : Type) (α : Type) := Option (α × List C)

/-- Return without emitting any backend call. -/
def tpure {C α : Type} (a : α) : TraceM C α := some (a, [])

/-- A panic (failed `assert!`/`expect`/out-of-bounds index). -/
def tfail {C α : Type} : TraceM C α := none

/-- Sequencing in `TraceM`: traces are concatenated in program order. -/
def tbind {C α β : Type} (x : TraceM C α) (f : α → TraceM C β) : TraceM C β :=
  match x with
  | none => none
  | some (a, t) => (f a).map (fun bt => (bt.1, t ++ bt.2))

theorem tbind_none {C α β : Type} (f : α → TraceM C β) :
    tbind (none : TraceM C α) f = none := rfl

theorem tbind_eq_some {C α β : Type} {x : TraceM C α} {f : α → TraceM C β}
    {b : β} {tr : List C} :
    tbind x f = some (b, tr) ↔
      ∃ a t1 t2, x = some (a, t1) ∧ f a = some (b, t2) ∧ tr = t1 ++ t2 := by
  obtain _ | ⟨a, t⟩ := x
  · simp [tbind]
  · simp only [tbind, Option.map_eq_some']
    constructor
    · rintro ⟨⟨b1, t2⟩, hbt, heq⟩
      injection heq with h1 h2
      subst h1
      subst h2
      exact ⟨a, t, t2, rfl, hbt, rfl⟩
    · rintro ⟨a1, t1, t2, h1, h2, h3⟩
      injection h1 with h4
      injection h4 with h5 h6
      subst h5
      subst h6
      subst h3
      exact ⟨(b, t2), h2, rfl⟩

theorem tpure_eq_some {C α : Type} {a b : α} {tr : List C} :
    tpure a = (some (b, tr) : TraceM C α) ↔ a = b ∧ tr = [] := by
  simp [tpure, eq_comm, and_comm]

/-- `Params` from `hnsw_db.rs` (the float field `m_L` only feeds the
floating-point layer-selection map, which is abstracted into the level
stream, so it is not carried here). -/
structure Params where
  ef : Nat
  M : Nat
  Mmax : Nat
  Mmax0 : Nat
deriving DecidableEq, Repr

/-- The default parameters installed by `HawkSearcher::new`. -/
def defaultParams : Params := { ef := 32, M := 32, Mmax := 32, Mmax0 := 32 }

/-- The pure model of a `VectorStore` backend: distance evaluation, ordering
and the match test (deterministic per the backend contract). -/
structure Store (Q Vec D : Type) where
  evalDistance : Q → Vec → D
  lessThan : D → D → Bool
  isMatch : D → Bool

/-- One backend call, as observed by the vector/graph backends. -/
inductive Call (Q Vec D : Type) where
  | evalDistance (q : Q) (v : Vec)
  | evalDistanceBatch (q : Q) (vs : List Vec)
  | lessThan (d1 d2 : D)
  | searchSorted (ds : List D) (t : D)
  | isMatch (d : D)
  | getEntryPoint
  | setEntryPoint (v : Vec) (layerCount : Nat)
  | getLinks (v : Vec) (lc : Nat)
  | setLinks (v : Vec) (links : List (Vec × D)) (lc : Nat)
deriving DecidableEq, Repr

/-- `EntryPoint` from `graph_store.rs`. -/
structure EntryPoint (Vec : Type) where
  vector_ref : Vec
  layer_count : Nat
deriving DecidableEq, Repr

/-- One layer of `GraphMem`: the `HashMap<VectorRef, FurthestQueue>` is
modelled as an association list (`set` replaces, `get` finds). -/
def assocGet {Vec D : Type} [DecidableEq Vec] (b : Vec)
    (layer : List (Vec × List (Vec × D))) : Option (List (Vec × D)) :=
  (layer.find? (fun p => p.1 = b)).map Prod.snd

def assocSet {Vec D : Type} [DecidableEq Vec] (b : Vec) (q : List (Vec × D)) :
    List (Vec × List (Vec × D)) → List (Vec × List (Vec × D))
  | [] => [(b, q)]
  | (b', q') :: rest =>
    if b' = b then (b, q) :: rest else (b', q') :: assocSet b q rest

/-- `GraphMem` from `graph_store/graph_mem.rs`. -/
structure GraphMem (Vec D : Type) where
  entry_point : Option (EntryPoint Vec)
  layers : List (List (Vec × List (Vec × D)))
deriving DecidableEq, Repr

namespace GraphMem

variable {Q Vec D : Type} [DecidableEq Vec]

/-- `GraphMem::new`. -/
def new : GraphMem Vec D := { entry_point := none, layers := [] }

/-- The stored neighbor queue of `base` at layer `lc`: `none` when the layer
does not exist (Rust `self.layers[lc]` panics), the empty queue when the
layer exists but holds no entry for `base`. -/
def storedLinks (g : GraphMem Vec D) (base : Vec) (lc : Nat) :
    Option (List (Vec × D)) :=
  match g.layers.get? lc with
  | none => none
  | some layer => some ((assocGet base layer).getD [])

/-- `GraphMem::get_entry_point` (always succeeds, emits one backend call). -/
def get_entry_point (g : GraphMem Vec D) :
    TraceM (Call Q Vec D) (Option (EntryPoint Vec)) :=
  some (g.entry_point, [Call.getEntryPoint])

/-- `GraphMem::set_entry_point`: asserts that the new entry point is on a
strictly higher layer than the previous one, then pushes empty layers until
`layer_count` many exist. -/
def set_entry_point (g : GraphMem Vec D) (ep : EntryPoint Vec) :
    TraceM (Call Q Vec D) (GraphMem Vec D) :=
  match g.entry_point with
  | some previous =>
    if previous.layer_count < ep.layer_count then
      some ({ entry_point := some ep,
              layers := g.layers ++
                List.replicate (ep.layer_count - g.layers.length) [] },
            [Call.setEntryPoint ep.vector_ref ep.layer_count])
    else none
  | none =>
    some ({ entry_point := some ep,
            layers := g.layers ++
              List.replicate (ep.layer_count - g.layers.length) [] },
          [Call.setEntryPoint ep.vector_ref ep.layer_count])

/-- `GraphMem::get_links`: panics when layer `lc` does not exist, otherwise
returns the stored queue or a fresh empty one. -/
def get_links (g : GraphMem Vec D) (base : Vec) (lc : Nat) :
    TraceM (Call Q Vec D) (List (Vec × D)) :=
  match g.storedLinks base lc with
  | none => none
  | some q => some (q, [Call.getLinks base lc])

/-- `GraphMem::set_links`: panics when layer `lc` does not exist, otherwise
replaces the queue stored under `base`. -/
def set_links (g : GraphMem Vec D) (base : Vec) (links : List (Vec × D))
    (lc : Nat) : TraceM (Call Q Vec D) (GraphMem Vec D) :=
  match g.layers.get? lc with
  | none => none
  | some layer =>
    some ({ g with layers := g.layers.set lc (assocSet base links layer) },
          [Call.setLinks base links lc])

end GraphMem

/-! ## The ordered queues (`hnsw_db/queue.rs`) and `search_sorted` (`lib.rs`) -/

/-- The `while left < right` loop of the default `VectorStore::search_sorted`
binary search. The structural `fuel` argument only serves kernel
reducibility: the caller passes `ds.length`, and since `rt - lf` shrinks by
at least one per iteration while starting at `ds.length`, the loop always
ends (`lf = rt`) before the fuel does, so this computes exactly the Rust
loop. -/
def binSearchLoop {D : Type} (lt : D → D → Bool) (ds : List D) (t : D) :
    Nat → Nat → Nat → Nat
  | 0, lf, _ => lf
  | fuel + 1, lf, rt =>
    if lf < rt then
      if lt (ds.getD (lf + (rt - lf) / 2) t) t then
        binSearchLoop lt ds t fuel (lf + (rt - lf) / 2 + 1) rt
      else
        binSearchLoop lt ds t fuel lf (lf + (rt - lf) / 2)
    else lf

/-- `VectorStore::search_sorted` (default implementation, `lib.rs`):
insertion index for `t` in the ascending list `ds`, computed by binary
search over `less_than`. -/
def search_sorted {D : Type} (lt : D → D → Bool) (ds : List D) (t : D) : Nat :=
  binSearchLoop lt ds t ds.length 0 ds.length

/-- `Vec::insert(index, x)`: splice `x` in at position `i`. -/
def insertAt {α : Type} (xs : List α) (i : Nat) (x : α) : List α :=
  xs.take i ++ x :: xs.drop i

namespace FurthestQueue

variable {Q Vec D : Type}

/-- `FurthestQueue::insert` (pure part): insert at the index given by
`search_sorted` over the queue's distances, keeping ascending order. -/
def insert (lt : D → D → Bool) (q : List (Vec × D)) (toV : Vec) (dist : D) :
    List (Vec × D) :=
  insertAt q (search_sorted lt (q.map Prod.snd) dist) (toV, dist)

/-- `FurthestQueue::insert`, with the `search_sorted` backend call traced. -/
def insertT (st : Store Q Vec D) (q : List (Vec × D)) (toV : Vec) (dist : D) :
    TraceM (Call Q Vec D) (List (Vec × D)) :=
  some (insert st.lessThan q toV dist,
        [Call.searchSorted (q.map Prod.snd) dist])

/-- `FurthestQueue::trim_to_k_nearest`. -/
def trim_to_k_nearest (q : List (Vec × D)) (k : Nat) : List (Vec × D) :=
  q.take k

end FurthestQueue

namespace NearestQueue

variable {Q Vec D : Type}

/-- `NearestQueue::from_furthest_queue`: reverse into descending order. -/
def from_furthest_queue (q : List (Vec × D)) : List (Vec × D) := q.reverse

/-- `NearestQueue::insert` (pure part): `search_sorted` runs on the reversed
(ascending) distances and the element lands at `len - index_asc`. -/
def insert (lt : D → D → Bool) (q : List (Vec × D)) (toV : Vec) (dist : D) :
    List (Vec × D) :=
  insertAt q (q.length - search_sorted lt ((q.map Prod.snd).reverse) dist)
    (toV, dist)

/-- `NearestQueue::insert`, with the `search_sorted` backend call traced. -/
def insertT (st : Store Q Vec D) (q : List (Vec × D)) (toV : Vec) (dist : D) :
    TraceM (Call Q Vec D) (List (Vec × D)) :=
  some (insert st.lessThan q toV dist,
        [Call.searchSorted ((q.map Prod.snd).reverse) dist])

end NearestQueue

/-! ## Traced vector-store calls -/

/-- `VectorStore::less_than` as a traced backend call. -/
def lessThanT {Q Vec D : Type} (st : Store Q Vec D) (d1 d2 : D) :
    TraceM (Call Q Vec D) Bool :=
  some (st.lessThan d1 d2, [Call.lessThan d1 d2])

/-- `VectorStore::eval_distance` as a traced backend call. -/
def evalDistanceT {Q Vec D : Type} (st : Store Q Vec D) (q : Q) (v : Vec) :
    TraceM (Call Q Vec D) D :=
  some (st.evalDistance q v, [Call.evalDistance q v])

/-- `VectorStore::eval_distance_batch` as one traced backend call (issued
once per expansion step, also on an empty batch, as in the code). -/
def evalDistanceBatchT {Q Vec D : Type} (st : Store Q Vec D) (q : Q)
    (vs : List Vec) : TraceM (Call Q Vec D) (List D) :=
  some (vs.map (st.evalDistance q), [Call.evalDistanceBatch q vs])

/-- `VectorStore::is_match` as a traced backend call. -/
def isMatchT {Q Vec D : Type} (st : Store Q Vec D) (d : D) :
    TraceM (Call Q Vec D) Bool :=
  some (st.isMatch d, [Call.isMatch d])

/-! ## The HNSW searcher (`hnsw_db.rs`) -/

/-- `HawkSearcher`: parameters, the graph store, and the deterministic
random source. `rngStream n` is the level produced by the `n`-th draw of the
seeded RNG (the AES draw composed with the floating-point
`(-ln(r) * m_L) as usize` map, which is outside the embedding); `rngPos`
counts the draws consumed so far. The vector store is passed separately to
each operation: the searcher operations below never mutate it. -/
structure HawkSearcher (Vec D : Type) where
  params : Params
  graph : GraphMem Vec D
  rngStream : Nat → Nat
  rngPos : Nat

namespace HawkSearcher

variable {Q Vec D : Type} [DecidableEq Vec]

/-- `HawkSearcher::select_layer`: one draw of the deterministic stream. -/
def select_layer (s : HawkSearcher Vec D) : Nat × HawkSearcher Vec D :=
  (s.rngStream s.rngPos, { s with rngPos := s.rngPos + 1 })

/-- `HawkSearcher::ef_for_layer`: the single `ef` parameter for all layers. -/
def ef_for_layer (p : Params) (_lc : Nat) : Nat := p.ef

end HawkSearcher

/-- The visited-set filter of `search_layer`: walk the neighbor list, keep
each vector whose insertion into the visited set `v` is new, threading the
set through. Returns `(v', batch)`. -/
def filterNew {Vec : Type} [DecidableEq Vec] (v : List Vec) :
    List Vec → List Vec × List Vec
  | [] => (v, [])
  | e :: rest =>
    if e ∈ v then filterNew v rest
    else
      let p := filterNew (e :: v) rest
      (p.1, e :: p.2)

/-- The body shared by both take-branches of the inner `for (e, eq)` loop of
`search_layer`: insert the candidate into `C` and `W` and refresh `fq` from
`W.get_furthest().expect(..)`. -/
def innerStep {Q Vec D : Type} (st : Store Q Vec D) (e : Vec) (eq : D)
    (C W : List (Vec × D)) :
    TraceM (Call Q Vec D) (List (Vec × D) × List (Vec × D) × D) :=
  tbind (NearestQueue.insertT st C e eq) fun C' =>
  tbind (FurthestQueue.insertT st W e eq) fun W' =>
  match W'.getLast? with
  | none => tfail
  | some p => tpure (C', W', p.2)

/-- The inner `for (e, eq) in c_links` loop of `search_layer`: when `W` is
full, either evict the furthest element or skip the candidate
(`continue`). -/
def innerLoop {Q Vec D : Type} (st : Store Q Vec D) (ef : Nat) :
    List (Vec × D) → List (Vec × D) → List (Vec × D) → D →
    TraceM (Call Q Vec D) (List (Vec × D) × List (Vec × D) × D)
  | [], C, W, fq => tpure (C, W, fq)
  | (e, eq) :: rest, C, W, fq =>
    if W.length = ef then
      tbind (lessThanT st eq fq) fun b =>
      if b then
        tbind (innerStep st e eq C W.dropLast) fun r =>
        innerLoop st ef rest r.1 r.2.1 r.2.2
      else innerLoop st ef rest C W fq
    else
      tbind (innerStep st e eq C W) fun r =>
      innerLoop st ef rest r.1 r.2.1 r.2.2

/-- The `while C.len() > 0` loop of `search_layer`. `C` is the descending
`NearestQueue` (`pop_nearest` pops its last element), `v` the visited set,
`fq` the current furthest distance in `W`. Fuel exhaustion on a non-empty
`C` is modelled as `none`. -/
def searchLayerLoop {Q Vec D : Type} [DecidableEq Vec] (st : Store Q Vec D)
    (g : GraphMem Vec D) (q : Q) (ef lc : Nat) :
    Nat → List Vec → List (Vec × D) → List (Vec × D) → D →
    TraceM (Call Q Vec D) (List (Vec × D))
  | fuel, v, C, W, fq =>
    match C.getLast? with
    | none => tpure W
    | some (c, cq) =>
      match fuel with
      | 0 => tfail
      | fuel + 1 =>
        tbind (lessThanT st fq cq) fun stop =>
        if stop then tpure W
        else
          tbind (GraphMem.get_links g c lc) fun cLinks =>
          tbind (evalDistanceBatchT st q
              (filterNew v (cLinks.map Prod.fst)).2) fun dists =>
          tbind (innerLoop st ef
              ((filterNew v (cLinks.map Prod.fst)).2.zip dists)
              C.dropLast W fq) fun r =>
          searchLayerLoop st g q ef lc fuel
            (filterNew v (cLinks.map Prod.fst)).1 r.1 r.2.1 r.2.2

/-- `HawkSearcher::search_layer`: seed the visited set from `W`, build the
candidate queue by reversing `W`, read `fq` from
`W.get_furthest().expect("W cannot be empty")` (a panic on empty `W`), then
run the expansion loop. Returns the updated `W`. -/
def search_layer {Q Vec D : Type} [DecidableEq Vec] (st : Store Q Vec D)
    (g : GraphMem Vec D) (q : Q) (W : List (Vec × D)) (ef lc fuel : Nat) :
    TraceM (Call Q Vec D) (List (Vec × D)) :=
  match W.getLast? with
  | none => tfail
  | some p =>
    searchLayerLoop st g q ef lc fuel (W.map Prod.fst)
      (NearestQueue.from_furthest_queue W) W p.2

/-- `HawkSearcher::search_init`: distance to the entry point seeds `W`;
an absent entry point yields an empty `W` and zero layers. -/
def search_init {Q Vec D : Type} [DecidableEq Vec] (st : Store Q Vec D)
    (g : GraphMem Vec D) (q : Q) :
    TraceM (Call Q Vec D) (List (Vec × D) × Nat) :=
  tbind (GraphMem.get_entry_point g) fun ep =>
  match ep with
  | some entry_point =>
    tbind (evalDistanceT st q entry_point.vector_ref) fun distance =>
    tbind (FurthestQueue.insertT st [] entry_point.vector_ref distance) fun W =>
    tpure (W, entry_point.layer_count)
  | none => tpure ([], 0)

/-- The `for lc in (0..layer_count).rev()` loop of `search_to_insert`:
runs `search_layer` for each layer index in the given order, snapshotting
`W` after each layer (in visit order, i.e. top-down). -/
def searchLoop {Q Vec D : Type} [DecidableEq Vec] (st : Store Q Vec D)
    (g : GraphMem Vec D) (q : Q) (ef fuel : Nat) :
    List Nat → List (Vec × D) →
    TraceM (Call Q Vec D) (List (Vec × D) × List (List (Vec × D)))
  | [], W => tpure (W, [])
  | lc :: rest, W =>
    tbind (search_layer st g q W ef lc fuel) fun W' =>
    tbind (searchLoop st g q ef fuel rest W') fun r =>
    tpure (r.1, W' :: r.2)

/-- `HawkSearcher::search_to_insert`: `search_init`, then all layers top-down
with `ef_for_layer`, then reverse so that index 0 is the bottom layer. -/
def search_to_insert {Q Vec D : Type} [DecidableEq Vec] (st : Store Q Vec D)
    (s : HawkSearcher Vec D) (q : Q) (fuel : Nat) :
    TraceM (Call Q Vec D) (List (List (Vec × D))) :=
  tbind (search_init st s.graph q) fun wl =>
  tbind (searchLoop st s.graph q (HawkSearcher.ef_for_layer s.params 0) fuel
      (List.range wl.2).reverse wl.1) fun r =>
  tpure r.2.reverse

/-- The `for (n, nq) in neighbors` loop of `connect_bidir`: read each
neighbor's links, insert `q` with the known distance, trim to `max_links`
and store back. -/
def backLoop {Q Vec D : Type} [DecidableEq Vec] (st : Store Q Vec D)
    (q : Vec) (lc maxLinks : Nat) :
    GraphMem Vec D → List (Vec × D) → TraceM (Call Q Vec D) (GraphMem Vec D)
  | g, [] => tpure g
  | g, (n, nq) :: rest =>
    tbind (GraphMem.get_links g n lc) fun links =>
    tbind (FurthestQueue.insertT st links q nq) fun links' =>
    tbind (GraphMem.set_links g n
        (FurthestQueue.trim_to_k_nearest links' maxLinks) lc) fun g' =>
    backLoop st q lc maxLinks g' rest

/-- `HawkSearcher::connect_bidir`: trim the forward queue to `M`, connect
every `n -> q` (trimming each to `Mmax0`/`Mmax`), then store `q -> neighbors`. -/
def connect_bidir {Q Vec D : Type} [DecidableEq Vec] (st : Store Q Vec D)
    (p : Params) (g : GraphMem Vec D) (q : Vec) (neighbors : List (Vec × D))
    (lc : Nat) : TraceM (Call Q Vec D) (GraphMem Vec D) :=
  let neighbors := FurthestQueue.trim_to_k_nearest neighbors p.M
  let maxLinks := if lc = 0 then p.Mmax0 else p.Mmax
  tbind (backLoop st q lc maxLinks g neighbors) fun g' =>
  GraphMem.set_links g' q neighbors lc

/-- The `links.into_iter().enumerate().take(l + 1)` loop of
`insert_from_search_results`: `cnt` is the remaining take budget, `lc` the
current enumeration index. -/
def connectLoop {Q Vec D : Type} [DecidableEq Vec] (st : Store Q Vec D)
    (p : Params) (q : Vec) :
    GraphMem Vec D → List (List (Vec × D)) → Nat → Nat →
    TraceM (Call Q Vec D) (GraphMem Vec D)
  | g, [], _, _ => tpure g
  | g, _ :: _, 0, _ => tpure g
  | g, nbrs :: rest, cnt + 1, lc =>
    tbind (connect_bidir st p g q nbrs lc) fun g' =>
    connectLoop st p q g' rest cnt (lc + 1)

/-- `HawkSearcher::insert_from_search_results`: draw the level `l`, connect
the new vector in layers `0 ..= min(l, layer_count - 1)`, and promote it to
entry point when `l >= layer_count`. Returns the updated searcher and the
drawn level. -/
def insert_from_search_results {Q Vec D : Type} [DecidableEq Vec]
    (st : Store Q Vec D) (s : HawkSearcher Vec D) (inserted_vector : Vec)
    (links : List (List (Vec × D))) :
    TraceM (Call Q Vec D) (HawkSearcher Vec D × Nat) :=
  let layer_count := links.length
  let drawn := s.select_layer
  let l := drawn.1
  let s1 := drawn.2
  tbind (connectLoop st s1.params inserted_vector s1.graph links (l + 1) 0)
    fun g' =>
  if layer_count ≤ l then
    tbind (GraphMem.set_entry_point g'
        { vector_ref := inserted_vector, layer_count := l + 1 }) fun g'' =>
    tpure ({ s1 with graph := g'' }, l)
  else tpure ({ s1 with graph := g' }, l)

/-- `HawkSearcher::is_match`: nearest pair of the bottom layer, if any. -/
def hawk_is_match {Q Vec D : Type} (st : Store Q Vec D)
    (neighbors : List (List (Vec × D))) : TraceM (Call Q Vec D) Bool :=
  match neighbors.head? with
  | none => tpure false
  | some bottom_layer =>
    match bottom_layer.head? with
    | none => tpure false
    | some p => isMatchT st p.2

/-! ## Sequences of searcher operations -/

/-- One public searcher operation (`search_to_insert`,
`insert_from_search_results`, `is_match`). -/
inductive SOp (Q Vec D : Type) where
  | search (q : Q)
  | insert (v : Vec) (links : List (List (Vec × D)))
  | checkMatch (links : List (List (Vec × D)))

/-- The observable outcome of one searcher operation (for inserts, the drawn
level). -/
inductive OpResult (Vec D : Type) where
  | searched (links : List (List (Vec × D)))
  | inserted (level : Nat)
  | matched (b : Bool)

/-- Run a sequence of searcher operations. `search` and `checkMatch` take the
searcher by shared reference (`&self` in the code) and so leave it unchanged;
`insert` threads the updated searcher. -/
def runOps {Q Vec D : Type} [DecidableEq Vec] (st : Store Q Vec D)
    (fuel : Nat) :
    HawkSearcher Vec D → List (SOp Q Vec D) →
    TraceM (Call Q Vec D) (HawkSearcher Vec D × List (OpResult Vec D))
  | s, [] => tpure (s, [])
  | s, SOp.search q :: rest =>
    tbind (search_to_insert st s q fuel) fun ls =>
    tbind (runOps st fuel s rest) fun r =>
    tpure (r.1, OpResult.searched ls :: r.2)
  | s, SOp.insert v links :: rest =>
    tbind (insert_from_search_results st s v links) fun sl =>
    tbind (runOps st fuel sl.1 rest) fun r =>
    tpure (r.1, OpResult.inserted sl.2 :: r.2)
  | s, SOp.checkMatch links :: rest =>
    tbind (hawk_is_match st links) fun b =>
    tbind (runOps st fuel s rest) fun r =>
    tpure (r.1, OpResult.matched b :: r.2)

/-- Run a sequence of `set_entry_point` calls (for the entry-point
monotonicity claim). -/
def runSetEntryPoints {Q Vec D : Type} [DecidableEq Vec] :
    GraphMem Vec D → List (EntryPoint Vec) →
    TraceM (Call Q Vec D) (GraphMem Vec D)
  | g, [] => tpure g
  | g, ep :: rest =>
    tbind (GraphMem.set_entry_point g ep) fun g' =>
    runSetEntryPoints g' rest

/-- The degree cap of layer `lc`: `Mmax0` at the bottom layer, `Mmax` above. -/
def capAt (p : Params) (lc : Nat) : Nat := if lc = 0 then p.Mmax0 else p.Mmax

/-- Does this backend call respect the per-layer degree caps? (True for all
calls other than `set_links`.) -/
def callCapOK {Q Vec D : Type} (p : Params) : Call Q Vec D → Bool
  | Call.setLinks _ q lc => q.length ≤ capAt p lc
  | _ => true

/-- Every queue stored in the graph respects the per-layer degree caps. -/
def degOK {Vec D : Type} (p : Params) (g : GraphMem Vec D) : Prop :=
  ∀ lc layer, g.layers.get? lc = some layer →
    ∀ b q, (b, q) ∈ layer → q.length ≤ capAt p lc

/-- The batches handed to `eval_distance_batch` in a trace, in order. -/
def batchesOf {Q Vec D : Type} (tr : List (Call Q Vec D)) : List (List Vec) :=
  tr.filterMap fun c =>
    match c with
    | Call.evalDistanceBatch _ vs => some vs
    | _ => none

/-- Number of `insert` operations in an operation sequence. -/
def countInserts {Q Vec D : Type} (ops : List (SOp Q Vec D)) : Nat :=
  ops.countP fun op =>
    match op with
    | SOp.insert _ _ => true
    | _ => false

/-- The levels drawn at the `insert` operations of a result list, in order. -/
def levelsOf {Vec D : Type} (rs : List (OpResult Vec D)) : List Nat :=
  rs.filterMap fun r =>
    match r with
    | OpResult.inserted l => some l
    | _ => none

/-! ## Helper lemmas -/

theorem set_entry_point_fields {Q Vec D : Type} [DecidableEq Vec]
    {g g' : GraphMem Vec D} {ep : EntryPoint Vec} {tr : List (Call Q Vec D)}
    (h : GraphMem.set_entry_point g ep = some (g', tr)) :
    g'.entry_point = some ep ∧
    g'.layers = g.layers ++ List.replicate (ep.layer_count - g.layers.length) [] ∧
    (∀ e0, g.entry_point = some e0 → e0.layer_count < ep.layer_count) := by
  cases hep : g.entry_point with
  | none =>
    simp only [GraphMem.set_entry_point, hep, Option.some.injEq,
      Prod.mk.injEq] at h
    obtain ⟨h1, h2⟩ := h
    subst h1
    refine ⟨rfl, rfl, ?_⟩
    intro e0 he
    simp at he
  | some previous =>
    simp only [GraphMem.set_entry_point, hep] at h
    by_cases hlt : previous.layer_count < ep.layer_count
    · rw [if_pos hlt] at h
      simp only [Option.some.injEq, Prod.mk.injEq] at h
      obtain ⟨h1, h2⟩ := h
      subst h1
      refine ⟨rfl, rfl, ?_⟩
      intro e0 he
      injection he with he2
      subst he2
      exact hlt
    · rw [if_neg hlt] at h
      cases h

theorem runSetEntryPoints_mono {Q Vec D : Type} [DecidableEq Vec] :
    ∀ (eps : List (EntryPoint Vec)) (g g' : GraphMem Vec D)
      (tr : List (Call Q Vec D)),
      runSetEntryPoints g eps = some (g', tr) →
      ∀ e0, g.entry_point = some e0 →
      ∀ e1, g'.entry_point = some e1 →
      e0.layer_count ≤ e1.layer_count := by
  intro eps
  induction eps with
  | nil =>
    intro g g' tr h e0 h0 e1 h1
    rw [runSetEntryPoints, tpure_eq_some] at h
    obtain ⟨h2, _⟩ := h
    subst h2
    rw [h0] at h1
    injection h1 with h3
    subst h3
    exact Nat.le_refl _
  | cons ep rest ih =>
    intro g g' tr h e0 h0 e1 h1
    rw [runSetEntryPoints, tbind_eq_some] at h
    obtain ⟨g1, t1, t2, hstep, hrest, _⟩ := h
    obtain ⟨hset, _, hlt⟩ := set_entry_point_fields hstep
    exact Nat.le_trans (Nat.le_of_lt (hlt e0 h0)) (ih g1 g' t2 hrest ep hset e1 h1)

theorem search_to_insert_no_entry {Q Vec D : Type} [DecidableEq Vec]
    (st : Store Q Vec D) (s : HawkSearcher Vec D) (q : Q) (fuel : Nat)
    (h : s.graph.entry_point = none) :
    search_to_insert st s q fuel = some ([], [Call.getEntryPoint]) := by
  simp [search_to_insert, search_init, GraphMem.get_entry_point, h, tbind,
    tpure, searchLoop]

/-! ## Claim C3: entry-point promotion is strictly monotone -/

/-- Claim C3: `set_entry_point` fails (assertion) exactly when a previous
entry point exists and the new `layer_count` is not strictly larger; across
any sequence of successful `set_entry_point` calls the observed entry-point
`layer_count` never decreases. -/
theorem hawk_C3_entry_point_monotone {Q Vec D : Type} [DecidableEq Vec] :
    (∀ (g : GraphMem Vec D) (ep : EntryPoint Vec),
        (GraphMem.set_entry_point g ep :
          TraceM (Call Q Vec D) (GraphMem Vec D)) = none ↔
          ∃ prev, g.entry_point = some prev ∧
            ep.layer_count ≤ prev.layer_count) ∧
    (∀ (eps : List (EntryPoint Vec)) (g g' : GraphMem Vec D)
        (tr : List (Call Q Vec D)),
        runSetEntryPoints g eps = some (g', tr) →
        ∀ e0, g.entry_point = some e0 →
        ∀ e1, g'.entry_point = some e1 →
        e0.layer_count ≤ e1.layer_count) := by
  constructor
  · intro g ep
    unfold GraphMem.set_entry_point
    cases hep : g.entry_point with
    | none => simp
    | some previous =>
      by_cases hlt : previous.layer_count < ep.layer_count
      · simp [hlt, Nat.not_le.mpr hlt]
      · simp only [if_neg hlt]
        simp [Nat.not_lt.mp hlt]
  · exact runSetEntryPoints_mono

/-- Witness for C3 at concrete inputs: a promotion to an equal layer count
fails, and a successful two-step history has non-decreasing observed
layer counts. -/
theorem hawk_C3_entry_point_monotone_witness :
    (GraphMem.set_entry_point
        ({ entry_point := some ⟨3, 2⟩, layers := [[], []] } : GraphMem Nat Nat)
        ⟨4, 2⟩ : TraceM (Call Nat Nat Nat) (GraphMem Nat Nat)) = none ∧
    (2 : Nat) ≤ 3 := by
  refine ⟨(hawk_C3_entry_point_monotone.1 _ _).mpr ⟨⟨3, 2⟩, rfl, by decide⟩, ?_⟩
  exact (@hawk_C3_entry_point_monotone Nat Nat Nat _).2 [⟨5, 3⟩]
    ({ entry_point := some ⟨3, 2⟩, layers := [[], []] } : GraphMem Nat Nat)
    ({ entry_point := some ⟨5, 3⟩, layers := [[], [], []] } : GraphMem Nat Nat)
    [Call.setEntryPoint 5 3] (by decide) ⟨3, 2⟩ rfl ⟨5, 3⟩ rfl

/-! ## Claim C9: `get_links` on a missing entry -/

/-- Claim C9 (amended): for a layer index that exists, `GraphMem::get_links`
returns the empty queue, not an error, when no links entry is stored for the
base vector; for a layer index out of range it panics (see the
counterexample). -/
theorem hawk_C9_missing_entry_is_empty {Q Vec D : Type} [DecidableEq Vec]
    (g : GraphMem Vec D) (base : Vec) (lc : Nat)
    (layer : List (Vec × List (Vec × D)))
    (hlc : g.layers.get? lc = some layer)
    (hmiss : assocGet base layer = none) :
    (GraphMem.get_links g base lc :
      TraceM (Call Q Vec D) (List (Vec × D))) =
      some ([], [Call.getLinks base lc]) := by
  unfold GraphMem.get_links GraphMem.storedLinks
  rw [hlc]
  simp [hmiss]

/-- Counterexample to C9 as stated: on the fresh in-memory graph (no layers),
`get_links(0, 0)` panics (out-of-bounds layer index) instead of returning the
empty queue, although no links entry is stored for base `0`. -/
theorem hawk_C9_counterexample :
    (GraphMem.get_links (GraphMem.new : GraphMem Nat Nat) 0 0 :
      TraceM (Call Nat Nat Nat) (List (Nat × Nat))) = none := rfl

/-- Witness for C9 at a concrete graph with one (empty) layer. -/
theorem hawk_C9_missing_entry_is_empty_witness :
    (GraphMem.get_links
        ({ entry_point := none, layers := [[]] } : GraphMem Nat Nat) 0 0 :
      TraceM (Call Nat Nat Nat) (List (Nat × Nat))) =
      some ([], [Call.getLinks 0 0]) :=
  hawk_C9_missing_entry_is_empty _ 0 0 [] rfl rfl

/-! ## Claim C6: searching an empty graph -/

/-- Claim C6: with no entry point, `search_to_insert` returns the empty list
(after the single `get_entry_point` backend call) and `is_match` of that
empty result is `false` (with no backend call at all). -/
theorem hawk_C6_empty_graph_search {Q Vec D : Type} [DecidableEq Vec]
    (st : Store Q Vec D) (s : HawkSearcher Vec D) (q : Q) (fuel : Nat)
    (h : s.graph.entry_point = none) :
    search_to_insert st s q fuel = some ([], [Call.getEntryPoint]) ∧
    hawk_is_match st ([] : List (List (Vec × D))) = some (false, []) :=
  ⟨search_to_insert_no_entry st s q fuel h, rfl⟩

/-- A concrete vector-store backend over `Nat` handles (absolute difference
as the distance), used for witnesses and counterexamples. -/
def storeNat : Store Nat Nat Nat :=
  { evalDistance := fun q v => (q - v) + (v - q),
    lessThan := fun a b => a < b,
    isMatch := fun d => d = 0 }

/-- Witness for C6: the freshly constructed searcher on the empty graph. -/
theorem hawk_C6_empty_graph_search_witness :
    search_to_insert storeNat
        ({ params := defaultParams, graph := GraphMem.new,
           rngStream := fun _ => 0, rngPos := 0 } : HawkSearcher Nat Nat)
        5 9 = some ([], [Call.getEntryPoint]) ∧
    hawk_is_match storeNat ([] : List (List (Nat × Nat))) = some (false, []) :=
  hawk_C6_empty_graph_search storeNat _ 5 9 rfl

/-! ## Claim C8: determinism of the backend-call sequence -/

/-- Claim C8: two searchers with the same parameters, the same RNG stream and
position (same seed), and the same graph state, driven through the same
operation sequence against the same deterministic backend, produce identical
results and identical backend-call traces (the `TraceM` value contains the
full ordered call sequence). -/
theorem hawk_C8_determinism {Q Vec D : Type} [DecidableEq Vec]
    (st : Store Q Vec D) (fuel : Nat) (ops : List (SOp Q Vec D))
    (s1 s2 : HawkSearcher Vec D)
    (hp : s1.params = s2.params) (hg : s1.graph = s2.graph)
    (hpos : s1.rngPos = s2.rngPos)
    (hstream : ∀ n, s1.rngStream n = s2.rngStream n) :
    runOps st fuel s1 ops = runOps st fuel s2 ops := by
  have hs : s1 = s2 := by
    cases s1
    cases s2
    simp only at hp hg hpos hstream
    rw [HawkSearcher.mk.injEq]
    exact ⟨hp, hg, funext hstream, hpos⟩
  rw [hs]

/-- Witness for C8 at a concrete pair of searchers and a concrete operation
sequence. -/
theorem hawk_C8_determinism_witness :
    runOps storeNat 6
        ({ params := defaultParams, graph := GraphMem.new,
           rngStream := fun n => n % 3, rngPos := 0 } : HawkSearcher Nat Nat)
        [SOp.search 1, SOp.insert 2 [], SOp.search 3] =
      runOps storeNat 6
        ({ params := defaultParams, graph := GraphMem.new,
           rngStream := fun n => n % 3, rngPos := 0 } : HawkSearcher Nat Nat)
        [SOp.search 1, SOp.insert 2 [], SOp.search 3] :=
  hawk_C8_determinism storeNat 6 _ _ _ rfl rfl rfl (fun _ => rfl)

/-! ## Claim C4: `search_layer` on an initially empty `W` -/

/-- Counterexample to C4 as stated: `search_layer` called with an initially
empty `W` does not terminate normally leaving `W` empty; it panics at
`W.get_furthest().expect("W cannot be empty")` (modelled as `none`), here at
a concrete input with a perfectly valid graph and plenty of fuel. -/
theorem hawk_C4_counterexample :
    search_layer storeNat
      ({ entry_point := none, layers := [[]] } : GraphMem Nat Nat)
      0 [] 32 0 9 = none := rfl

/-- Claim C4 (amended): `search_layer` on an initially empty `W` aborts
deterministically (the `expect` on `W.get_furthest()`); the no-entry-point
case never reaches `search_layer`, because `search_to_insert` gets
`layer_count = 0` from `search_init` and its layer loop body never runs,
returning the empty result. -/
theorem hawk_C4_empty_W_aborts {Q Vec D : Type} [DecidableEq Vec]
    (st : Store Q Vec D) (g : GraphMem Vec D) (q : Q) (ef lc fuel : Nat) :
    search_layer st g q [] ef lc fuel = none ∧
    (∀ (s : HawkSearcher Vec D), s.graph.entry_point = none →
        search_to_insert st s q fuel = some ([], [Call.getEntryPoint])) :=
  ⟨rfl, fun s hs => search_to_insert_no_entry st s q fuel hs⟩

/-- Witness for C4 (amended) at concrete inputs. -/
theorem hawk_C4_empty_W_aborts_witness :
    search_layer storeNat (GraphMem.new : GraphMem Nat Nat) 3 [] 32 0 7 =
        none ∧
    search_to_insert storeNat
        ({ params := defaultParams, graph := GraphMem.new,
           rngStream := fun _ => 0, rngPos := 0 } : HawkSearcher Nat Nat)
        3 7 = some ([], [Call.getEntryPoint]) := by
  obtain ⟨h1, h2⟩ := hawk_C4_empty_W_aborts storeNat
    (GraphMem.new : GraphMem Nat Nat) 3 32 0 7
  exact ⟨h1, h2 _ rfl⟩

/-! ## Claim C5: `search_sorted` and order preservation of queue insertion -/

theorem lt_asymm_of {D : Type} (lt : D → D → Bool)
    (hIrr : ∀ a, lt a a = false)
    (hTrans : ∀ a b c, lt a b = true → lt b c = true → lt a c = true) :
    ∀ a b, lt a b = true → lt b a = false := by
  intro a b hab
  cases hba : lt b a
  · rfl
  · exact absurd (hTrans a b a hab hba) (by simp [hIrr a])

theorem lt_step_of {D : Type} (lt : D → D → Bool)
    (hTrans : ∀ a b c, lt a b = true → lt b c = true → lt a c = true)
    (hTies : ∀ a b c, lt a b = false → lt b a = false → lt b c = false →
      lt c b = false → lt a c = false) :
    ∀ a b c, lt a c = true → lt a b = false → lt b c = true := by
  intro a b c hac hab
  cases hbc : lt b c
  · exfalso
    have hba : lt b a = false := by
      cases hba : lt b a
      · rfl
      · exact absurd (hTrans b a c hba hac) (by simp [hbc])
    have hcb : lt c b = false := by
      cases hcb : lt c b
      · rfl
      · exact absurd (hTrans a c b hac hcb) (by simp [hab])
    have := hTies a b c hab hba hbc hcb
    rw [this] at hac
    cases hac
  · rfl

theorem binSearchLoop_bounds {D : Type} (lt : D → D → Bool) (ds : List D)
    (t : D) :
    ∀ n lf rt, rt - lf ≤ n → lf ≤ rt →
      lf ≤ binSearchLoop lt ds t n lf rt ∧ binSearchLoop lt ds t n lf rt ≤ rt := by
  intro n
  induction n with
  | zero =>
    intro lf rt h1 h2
    rw [binSearchLoop]
    omega
  | succ n ih =>
    intro lf rt h1 h2
    rw [binSearchLoop]
    by_cases hlt : lf < rt
    · rw [if_pos hlt]
      by_cases hb : lt (ds.getD (lf + (rt - lf) / 2) t) t
      · rw [if_pos hb]
        have := ih (lf + (rt - lf) / 2 + 1) rt (by omega) (by omega)
        omega
      · rw [if_neg hb]
        have := ih lf (lf + (rt - lf) / 2) (by omega) (by omega)
        omega
    · rw [if_neg hlt]
      omega

theorem binSearchLoop_spec {D : Type} (lt : D → D → Bool) (ds : List D)
    (t : D)
    (hmono : ∀ j k (hj : j < ds.length) (hk : k < ds.length), j ≤ k →
      lt ds[k] t = true → lt ds[j] t = true) :
    ∀ n lf rt, rt - lf ≤ n → lf ≤ rt → rt ≤ ds.length →
      (∀ j (hj : j < ds.length), j < lf → lt ds[j] t = true) →
      (∀ j (hj : j < ds.length), rt ≤ j → lt ds[j] t = false) →
      (∀ j (hj : j < ds.length), j < binSearchLoop lt ds t n lf rt →
        lt ds[j] t = true) ∧
      (∀ j (hj : j < ds.length), binSearchLoop lt ds t n lf rt ≤ j →
        lt ds[j] t = false) := by
  intro n
  induction n with
  | zero =>
    intro lf rt h1 h2 h3 hlo hhi
    rw [binSearchLoop]
    exact ⟨hlo, fun j hj hge => hhi j hj (by omega)⟩
  | succ n ih =>
    intro lf rt h1 h2 h3 hlo hhi
    rw [binSearchLoop]
    by_cases hlt : lf < rt
    · rw [if_pos hlt]
      have hmid : lf + (rt - lf) / 2 < ds.length := by omega
      have hgd : ds.getD (lf + (rt - lf) / 2) t = ds[lf + (rt - lf) / 2] := by
        rw [List.getD_eq_getElem?_getD, List.getElem?_eq_getElem hmid]
        rfl
      by_cases hb : lt (ds.getD (lf + (rt - lf) / 2) t) t
      · rw [if_pos hb]
        rw [hgd] at hb
        refine ih (lf + (rt - lf) / 2 + 1) rt (by omega) (by omega) h3 ?_ hhi
        intro j hj hjlt
        exact hmono j (lf + (rt - lf) / 2) hj hmid (by omega) hb
      · rw [if_neg hb]
        rw [hgd] at hb
        refine ih lf (lf + (rt - lf) / 2) (by omega) (by omega) (by omega)
          hlo ?_
        intro j hj hge
        cases hjb : lt ds[j] t
        · rfl
        · exact absurd (hmono (lf + (rt - lf) / 2) j hmid hj hge hjb)
            (by simp [Bool.not_eq_true] at hb; simp [hb])
    · rw [if_neg hlt]
      exact ⟨fun j hj hjlt => hlo j hj hjlt,
        fun j hj hge => hhi j hj (by omega)⟩

theorem mono_of_sorted {D : Type} (lt : D → D → Bool) (t : D)
    (hTrans : ∀ a b c, lt a b = true → lt b c = true → lt a c = true)
    (hTies : ∀ a b c, lt a b = false → lt b a = false → lt b c = false →
      lt c b = false → lt a c = false)
    (ds : List D) (hs : List.Pairwise (fun a b => lt b a = false) ds) :
    ∀ j k (hj : j < ds.length) (hk : k < ds.length), j ≤ k →
      lt ds[k] t = true → lt ds[j] t = true := by
  intro j k hj hk hjk hkt
  rcases Nat.eq_or_lt_of_le hjk with heq | hlt
  · subst heq
    exact hkt
  · have hpair : lt ds[k] ds[j] = false :=
      List.pairwise_iff_get.mp hs ⟨j, hj⟩ ⟨k, hk⟩ hlt
    exact lt_step_of lt hTrans hTies _ _ _ hkt hpair

theorem pairwise_insertAt {α : Type} (R : α → α → Prop) (l : List α)
    (i : Nat) (x : α) (hl : List.Pairwise R l)
    (h1 : ∀ b ∈ l.take i, R b x) (h2 : ∀ b ∈ l.drop i, R x b) :
    List.Pairwise R (insertAt l i x) := by
  unfold insertAt
  rw [List.pairwise_append]
  refine ⟨hl.sublist (List.take_sublist i l), ?_, ?_⟩
  · rw [List.pairwise_cons]
    exact ⟨h2, hl.sublist (List.drop_sublist i l)⟩
  · intro a ha b hb
    rcases List.mem_cons.mp hb with rfl | hb'
    · exact h1 a ha
    · have hsplit : List.Pairwise R (l.take i ++ l.drop i) := by
        rw [List.take_append_drop]
        exact hl
      exact (List.pairwise_append.mp hsplit).2.2 a ha b hb'

/-- Claim C5: for every ascending-sorted list of distances (in the sense of
the `less_than` contract: an irreflexive, transitive comparison whose
incomparabilities are transitive, i.e. ties are consistent), the default
`search_sorted` returns the index `i` such that `less_than(d_j, target)`
holds exactly for the `j < i`, `i` is a valid insertion index, and
`FurthestQueue::insert` at that index preserves ascending order. -/
theorem hawk_C5_search_sorted {Vec D : Type} (lt : D → D → Bool)
    (hIrr : ∀ a, lt a a = false)
    (hTrans : ∀ a b c, lt a b = true → lt b c = true → lt a c = true)
    (hTies : ∀ a b c, lt a b = false → lt b a = false → lt b c = false →
      lt c b = false → lt a c = false)
    (pairs : List (Vec × D)) (toV : Vec) (t : D)
    (hSorted : List.Pairwise (fun a b : Vec × D => lt b.2 a.2 = false) pairs) :
    (∀ j (hj : j < pairs.length),
        (j < search_sorted lt (pairs.map Prod.snd) t →
          lt pairs[j].2 t = true) ∧
        (search_sorted lt (pairs.map Prod.snd) t ≤ j →
          lt pairs[j].2 t = false)) ∧
    search_sorted lt (pairs.map Prod.snd) t ≤ pairs.length ∧
    List.Pairwise (fun a b : Vec × D => lt b.2 a.2 = false)
      (FurthestQueue.insert lt pairs toV t) := by
  have hsd : List.Pairwise (fun a b : D => lt b a = false)
      (pairs.map Prod.snd) := by
    rw [List.pairwise_map]
    exact hSorted
  have hmono := mono_of_sorted lt t hTrans hTies (pairs.map Prod.snd) hsd
  have hlen : (pairs.map Prod.snd).length = pairs.length := by
    rw [List.length_map]
  have hspec := binSearchLoop_spec lt (pairs.map Prod.snd) t hmono
    (pairs.map Prod.snd).length 0 (pairs.map Prod.snd).length
    (by omega) (by omega) (by omega)
    (fun j hj hjlt => absurd hjlt (by omega))
    (fun j hj hge => absurd hge (by omega))
  have hbounds := binSearchLoop_bounds lt (pairs.map Prod.snd) t
    (pairs.map Prod.snd).length 0 (pairs.map Prod.snd).length
    (by omega) (by omega)
  rw [show binSearchLoop lt (pairs.map Prod.snd) t
      (pairs.map Prod.snd).length 0 (pairs.map Prod.snd).length =
      search_sorted lt (pairs.map Prod.snd) t
    from rfl] at hspec hbounds
  have hget : ∀ (j : Nat) (hj : j < pairs.length)
      (hj2 : j < (pairs.map Prod.snd).length),
      (pairs.map Prod.snd)[j] = pairs[j].2 := by
    intro j hj hj2
    rw [List.getElem_map]
  refine ⟨?_, by omega, ?_⟩
  · intro j hj
    constructor
    · intro hlt
      rw [← hget j hj (by omega)]
      exact hspec.1 j (by omega) hlt
    · intro hge
      rw [← hget j hj (by omega)]
      exact hspec.2 j (by omega) hge
  · unfold FurthestQueue.insert
    apply pairwise_insertAt _ _ _ _ hSorted
    · intro b hb
      obtain ⟨k, hk, hbk⟩ := List.mem_iff_getElem.mp hb
      have hk' : k < pairs.length := by
        have := List.length_take (search_sorted lt (pairs.map Prod.snd) t) pairs
        omega
      have hbk' : pairs[k] = b := by
        rw [← hbk, List.getElem_take]
      have hklt : k < search_sorted lt (pairs.map Prod.snd) t := by
        have := List.length_take (search_sorted lt (pairs.map Prod.snd) t) pairs
        omega
      have := (hspec.1 k (by omega) hklt)
      rw [hget k hk' (by omega)] at this
      rw [hbk'] at this
      exact lt_asymm_of lt hIrr hTrans _ _ this
    · intro b hb
      obtain ⟨k, hk, hbk⟩ := List.mem_iff_getElem.mp hb
      have hk' : search_sorted lt (pairs.map Prod.snd) t + k < pairs.length := by
        have := List.length_drop (search_sorted lt (pairs.map Prod.snd) t) pairs
        omega
      have hbk' : pairs[search_sorted lt (pairs.map Prod.snd) t + k] = b := by
        rw [← hbk, List.getElem_drop]
      have := hspec.2 (search_sorted lt (pairs.map Prod.snd) t + k)
        (by omega) (by omega)
      rw [hget _ hk' (by omega)] at this
      rw [hbk'] at this
      exact this

/-- Witness for C5 at a concrete sorted queue over `Nat` distances. -/
theorem hawk_C5_search_sorted_witness :
    search_sorted (fun a b : Nat => decide (a < b)) [1, 3, 5] 4 ≤ 3 ∧
    List.Pairwise (fun a b : Nat × Nat => decide (b.2 < a.2) = false)
      (FurthestQueue.insert (fun a b : Nat => decide (a < b))
        [(10, 1), (11, 3), (12, 5)] 13 4) := by
  have h := hawk_C5_search_sorted (fun a b : Nat => decide (a < b))
    (fun a => by simp)
    (fun a b c h1 h2 => by simp at h1 h2 ⊢; omega)
    (fun a b c h1 h2 h3 h4 => by simp at h1 h2 h3 h4 ⊢; omega)
    [(10, 1), (11, 3), (12, 5)] 13 4 (by decide)
  exact ⟨h.2.1, h.2.2⟩

/-! ## Claim C10: searches leave the searcher state unchanged -/

theorem insert_from_search_results_fields {Q Vec D : Type} [DecidableEq Vec]
    {st : Store Q Vec D} {s s1 : HawkSearcher Vec D} {v : Vec}
    {links : List (List (Vec × D))} {lvl : Nat} {tr : List (Call Q Vec D)}
    (h : insert_from_search_results st s v links = some ((s1, lvl), tr)) :
    s1.params = s.params ∧ s1.rngStream = s.rngStream ∧
    s1.rngPos = s.rngPos + 1 ∧ lvl = s.rngStream s.rngPos := by
  simp only [insert_from_search_results, HawkSearcher.select_layer] at h
  rw [tbind_eq_some] at h
  obtain ⟨g1, t1, t2, hconn, hbranch, htr⟩ := h
  by_cases hc : links.length ≤ s.rngStream s.rngPos
  · rw [if_pos hc, tbind_eq_some] at hbranch
    obtain ⟨g2, t3, t4, hset, hpure, _⟩ := hbranch
    rw [tpure_eq_some] at hpure
    obtain ⟨hpair, _⟩ := hpure
    injection hpair with h1 h2
    subst h1
    subst h2
    exact ⟨rfl, rfl, rfl, rfl⟩
  · rw [if_neg hc, tpure_eq_some] at hbranch
    obtain ⟨hpair, _⟩ := hbranch
    injection hpair with h1 h2
    subst h1
    subst h2
    exact ⟨rfl, rfl, rfl, rfl⟩

/-- Claim C10: `search_to_insert` and `is_match` never mutate the searcher:
after any successful operation sequence the parameters and the RNG stream are
unchanged, the RNG position advances by exactly the number of
`insert_from_search_results` calls, the drawn levels are exactly the next
`countInserts` entries of the stream (so interleaving extra searches between
inserts does not change the layer assignments of subsequent inserts), and a
sequence without inserts leaves the searcher completely unchanged. -/
theorem hawk_C10_search_frame {Q Vec D : Type} [DecidableEq Vec] (st : Store Q Vec D)
    (fuel : Nat) :
    ∀ (ops : List (SOp Q Vec D)) (s s' : HawkSearcher Vec D)
      (rs : List (OpResult Vec D)) (tr : List (Call Q Vec D)),
      runOps st fuel s ops = some ((s', rs), tr) →
      s'.params = s.params ∧ (∀ n, s'.rngStream n = s.rngStream n) ∧
      s'.rngPos = s.rngPos + countInserts ops ∧
      levelsOf rs = (List.range (countInserts ops)).map
        (fun i => s.rngStream (s.rngPos + i)) ∧
      (countInserts ops = 0 → s' = s) := by
  intro ops
  induction ops with
  | nil =>
    intro s s' rs tr h
    rw [runOps, tpure_eq_some] at h
    obtain ⟨hpair, _⟩ := h
    injection hpair with h1 h2
    subst h1
    subst h2
    simp [countInserts, levelsOf]
  | cons op rest ih =>
    intro s s' rs tr h
    cases op with
    | search q =>
      rw [runOps, tbind_eq_some] at h
      obtain ⟨ls, t1, t2, hsrch, h, _⟩ := h
      rw [tbind_eq_some] at h
      obtain ⟨r, t3, t4, hrest, hpure, _⟩ := h
      rw [tpure_eq_some] at hpure
      obtain ⟨hpair, _⟩ := hpure
      injection hpair with h1 h2
      subst h1
      subst h2
      obtain ⟨p1, p2, p3, p4, p5⟩ := ih s r.1 r.2 t3 (by rw [hrest])
      refine ⟨p1, p2, ?_, ?_, ?_⟩
      · simpa [countInserts, List.countP_cons] using p3
      · simpa [countInserts, levelsOf, List.countP_cons] using p4
      · intro hz
        exact p5 (by simpa [countInserts, List.countP_cons] using hz)
    | insert v links =>
      rw [runOps, tbind_eq_some] at h
      obtain ⟨sl, t1, t2, hins, h, _⟩ := h
      rw [tbind_eq_some] at h
      obtain ⟨r, t3, t4, hrest, hpure, _⟩ := h
      rw [tpure_eq_some] at hpure
      obtain ⟨hpair, _⟩ := hpure
      injection hpair with h1 h2
      subst h1
      subst h2
      have hins2 : insert_from_search_results st s v links =
          some ((sl.1, sl.2), t1) := by rw [hins]
      obtain ⟨f1, f2, f3, f4⟩ := insert_from_search_results_fields hins2
      obtain ⟨p1, p2, p3, p4, _⟩ := ih sl.1 r.1 r.2 t3 (by rw [hrest])
      have hcnt : countInserts (SOp.insert v links :: rest) =
          countInserts rest + 1 := by
        simp [countInserts, List.countP_cons]
      refine ⟨by rw [p1, f1], ?_, ?_, ?_, ?_⟩
      · intro n
        rw [p2 n, f2]
      · rw [hcnt, p3, f3]
        omega
      · rw [hcnt]
        have hl : levelsOf (OpResult.inserted sl.2 :: r.2) =
            sl.2 :: levelsOf r.2 := by simp [levelsOf]
        rw [hl, p4, f4, List.range_succ_eq_map, List.map_cons, List.map_map]
        refine congrArg₂ _ (congrArg _ (by omega)) ?_
        refine List.map_congr_left ?_
        intro i _
        simp only [Function.comp_apply, f2, f3]
        exact congrArg s.rngStream (by omega)
      · intro hz
        rw [hcnt] at hz
        omega
    | checkMatch links =>
      rw [runOps, tbind_eq_some] at h
      obtain ⟨b, t1, t2, hmatch, h, _⟩ := h
      rw [tbind_eq_some] at h
      obtain ⟨r, t3, t4, hrest, hpure, _⟩ := h
      rw [tpure_eq_some] at hpure
      obtain ⟨hpair, _⟩ := hpure
      injection hpair with h1 h2
      subst h1
      subst h2
      obtain ⟨p1, p2, p3, p4, p5⟩ := ih s r.1 r.2 t3 (by rw [hrest])
      refine ⟨p1, p2, ?_, ?_, ?_⟩
      · simpa [countInserts, List.countP_cons] using p3
      · simpa [countInserts, levelsOf, List.countP_cons] using p4
      · intro hz
        exact p5 (by simpa [countInserts, List.countP_cons] using hz)


/-- A concrete searcher and operation sequence for the C10 witness. -/
def c10s : HawkSearcher Nat Nat :=
  { params := defaultParams, graph := GraphMem.new,
    rngStream := fun n => n % 2, rngPos := 0 }

def c10ops : List (SOp Nat Nat Nat) :=
  [SOp.insert 5 [], SOp.search 6, SOp.checkMatch [[(5, 1)]],
   SOp.insert 6 [[(5, 1)]], SOp.search 5]

/-- Witness for C10: a concrete five-operation run (two inserts with
interleaved searches and a match check). -/
theorem hawk_C10_search_frame_witness :
    ∃ s' rs tr, runOps storeNat 8 c10s c10ops = some ((s', rs), tr) ∧
      s'.rngPos = c10s.rngPos + countInserts c10ops ∧
      levelsOf rs = (List.range (countInserts c10ops)).map
        (fun i => c10s.rngStream (c10s.rngPos + i)) := by
  have hs : (runOps storeNat 8 c10s c10ops).isSome = true := by rfl
  obtain ⟨⟨⟨s', rs⟩, tr⟩, hrun⟩ := Option.isSome_iff_exists.mp hs
  obtain ⟨p1, p2, p3, p4, p5⟩ :=
    hawk_C10_search_frame storeNat 8 c10ops c10s s' rs tr hrun
  exact ⟨s', rs, tr, hrun, p3, p4⟩

/-! ## Trace machinery -/

/-- All calls in every successful trace of `x` satisfy `P`. -/
def TraceOK {C α : Type} (P : C → Prop) (x : TraceM C α) : Prop :=
  ∀ a tr, x = some (a, tr) → ∀ c ∈ tr, P c

theorem traceOK_tfail {C α : Type} (P : C → Prop) :
    TraceOK P (tfail : TraceM C α) := by
  intro a tr h
  cases h

theorem traceOK_tpure {C α : Type} (P : C → Prop) (a : α) :
    TraceOK P (tpure a : TraceM C α) := by
  intro b tr h c hc
  rw [tpure_eq_some] at h
  obtain ⟨_, h2⟩ := h
  subst h2
  cases hc

theorem traceOK_emit {C α : Type} {P : C → Prop} {a : α} {c0 : C}
    (h : P c0) : TraceOK P (some (a, [c0]) : TraceM C α) := by
  intro b tr hab c hc
  injection hab with h1
  injection h1 with _ h2
  subst h2
  rcases List.mem_singleton.mp hc with rfl
  exact h

theorem traceOK_tbind {C α β : Type} {P : C → Prop} {x : TraceM C α}
    {f : α → TraceM C β} (hx : TraceOK P x) (hf : ∀ a, TraceOK P (f a)) :
    TraceOK P (tbind x f) := by
  intro b tr h c hc
  rw [tbind_eq_some] at h
  obtain ⟨a, t1, t2, hx', hf', htr⟩ := h
  subst htr
  rcases List.mem_append.mp hc with h1 | h2
  · exact hx a t1 hx' c h1
  · exact hf a b t2 hf' c h2

/-- Is this backend call a `set_links` write? -/
def isSetLinks {Q Vec D : Type} : Call Q Vec D → Bool
  | Call.setLinks _ _ _ => true
  | _ => false

theorem callCapOK_of_not_setLinks {Q Vec D : Type} (p : Params)
    (c : Call Q Vec D) (h : isSetLinks c = false) : callCapOK p c = true := by
  cases c <;> simp [callCapOK]
  cases h

/-- The searcher's read-only operations issue no `set_links` call. -/
theorem noSetLinks_get_links {Q Vec D : Type} [DecidableEq Vec]
    (g : GraphMem Vec D) (b : Vec) (lc : Nat) :
    TraceOK (fun c : Call Q Vec D => isSetLinks c = false)
      (GraphMem.get_links g b lc) := by
  unfold GraphMem.get_links
  cases g.storedLinks b lc
  · exact traceOK_tfail _
  · exact traceOK_emit rfl

theorem noSetLinks_innerStep {Q Vec D : Type} (st : Store Q Vec D)
    (e : Vec) (eq : D) (C W : List (Vec × D)) :
    TraceOK (fun c : Call Q Vec D => isSetLinks c = false)
      (innerStep st e eq C W) := by
  unfold innerStep
  refine traceOK_tbind (traceOK_emit rfl) fun C' => ?_
  refine traceOK_tbind (traceOK_emit rfl) fun W' => ?_
  cases W'.getLast?
  · exact traceOK_tfail _
  · exact traceOK_tpure _ _

theorem noSetLinks_innerLoop {Q Vec D : Type} (st : Store Q Vec D)
    (ef : Nat) :
    ∀ (l : List (Vec × D)) (C W : List (Vec × D)) (fq : D),
      TraceOK (fun c : Call Q Vec D => isSetLinks c = false)
        (innerLoop st ef l C W fq) := by
  intro l
  induction l with
  | nil => intro C W fq; exact traceOK_tpure _ _
  | cons p rest ih =>
    intro C W fq
    obtain ⟨e, eq⟩ := p
    rw [innerLoop]
    by_cases hW : W.length = ef
    · rw [if_pos hW]
      refine traceOK_tbind (traceOK_emit rfl) fun b => ?_
      by_cases hb : b
      · rw [if_pos hb]
        exact traceOK_tbind (noSetLinks_innerStep st e eq C W.dropLast)
          fun r => ih r.1 r.2.1 r.2.2
      · rw [if_neg hb]
        exact ih C W fq
    · rw [if_neg hW]
      exact traceOK_tbind (noSetLinks_innerStep st e eq C W)
        fun r => ih r.1 r.2.1 r.2.2

theorem noSetLinks_searchLayerLoop {Q Vec D : Type} [DecidableEq Vec]
    (st : Store Q Vec D) (g : GraphMem Vec D) (q : Q) (ef lc : Nat) :
    ∀ (fuel : Nat) (v : List Vec) (C W : List (Vec × D)) (fq : D),
      TraceOK (fun c : Call Q Vec D => isSetLinks c = false)
        (searchLayerLoop st g q ef lc fuel v C W fq) := by
  intro fuel
  induction fuel with
  | zero =>
    intro v C W fq
    rw [searchLayerLoop]
    cases C.getLast?
    · exact traceOK_tpure _ _
    · exact traceOK_tfail _
  | succ fuel ih =>
    intro v C W fq
    rw [searchLayerLoop]
    cases C.getLast? with
    | none => exact traceOK_tpure _ _
    | some p =>
      refine traceOK_tbind (traceOK_emit rfl) fun stop => ?_
      by_cases hs : stop
      · rw [if_pos hs]
        exact traceOK_tpure _ _
      · rw [if_neg hs]
        refine traceOK_tbind (noSetLinks_get_links g p.1 lc) fun cLinks => ?_
        refine traceOK_tbind (traceOK_emit rfl) fun dists => ?_
        refine traceOK_tbind (noSetLinks_innerLoop st ef _ _ _ _) fun r => ?_
        exact ih _ r.1 r.2.1 r.2.2

theorem noSetLinks_search_layer {Q Vec D : Type} [DecidableEq Vec]
    (st : Store Q Vec D) (g : GraphMem Vec D) (q : Q) (W : List (Vec × D))
    (ef lc fuel : Nat) :
    TraceOK (fun c : Call Q Vec D => isSetLinks c = false)
      (search_layer st g q W ef lc fuel) := by
  unfold search_layer
  cases W.getLast?
  · exact traceOK_tfail _
  · exact noSetLinks_searchLayerLoop st g q ef lc fuel _ _ _ _

theorem noSetLinks_search_init {Q Vec D : Type} [DecidableEq Vec]
    (st : Store Q Vec D) (g : GraphMem Vec D) (q : Q) :
    TraceOK (fun c : Call Q Vec D => isSetLinks c = false)
      (search_init st g q) := by
  unfold search_init
  refine traceOK_tbind (traceOK_emit rfl) fun ep => ?_
  cases ep
  · exact traceOK_tpure _ _
  · refine traceOK_tbind (traceOK_emit rfl) fun d => ?_
    refine traceOK_tbind (traceOK_emit rfl) fun W => ?_
    exact traceOK_tpure _ _

theorem noSetLinks_searchLoop {Q Vec D : Type} [DecidableEq Vec]
    (st : Store Q Vec D) (g : GraphMem Vec D) (q : Q) (ef fuel : Nat) :
    ∀ (lcs : List Nat) (W : List (Vec × D)),
      TraceOK (fun c : Call Q Vec D => isSetLinks c = false)
        (searchLoop st g q ef fuel lcs W) := by
  intro lcs
  induction lcs with
  | nil => intro W; exact traceOK_tpure _ _
  | cons lc rest ih =>
    intro W
    rw [searchLoop]
    refine traceOK_tbind (noSetLinks_search_layer st g q W ef lc fuel)
      fun W' => ?_
    exact traceOK_tbind (ih W') fun r => traceOK_tpure _ _

theorem noSetLinks_search_to_insert {Q Vec D : Type} [DecidableEq Vec]
    (st : Store Q Vec D) (s : HawkSearcher Vec D) (q : Q) (fuel : Nat) :
    TraceOK (fun c : Call Q Vec D => isSetLinks c = false)
      (search_to_insert st s q fuel) := by
  unfold search_to_insert
  refine traceOK_tbind (noSetLinks_search_init st s.graph q) fun wl => ?_
  exact traceOK_tbind (noSetLinks_searchLoop st s.graph q _ fuel _ wl.1)
    fun r => traceOK_tpure _ _

theorem noSetLinks_hawk_is_match {Q Vec D : Type} (st : Store Q Vec D)
    (neighbors : List (List (Vec × D))) :
    TraceOK (fun c : Call Q Vec D => isSetLinks c = false)
      (hawk_is_match st neighbors) := by
  unfold hawk_is_match
  cases neighbors.head? with
  | none => exact traceOK_tpure _ _
  | some bottom =>
    dsimp only
    cases bottom.head? with
    | none => exact traceOK_tpure _ _
    | some p => exact traceOK_emit rfl

/-! ## Association-list and `set_links` lemmas -/

theorem mem_assocSet {Vec D : Type} [DecidableEq Vec] (b : Vec)
    (q : List (Vec × D)) :
    ∀ (layer : List (Vec × List (Vec × D))) (b' : Vec) (q' : List (Vec × D)),
      (b', q') ∈ assocSet b q layer → (b' = b ∧ q' = q) ∨ (b', q') ∈ layer := by
  intro layer
  induction layer with
  | nil =>
    intro b' q' h
    rcases List.mem_singleton.mp h with h'
    injection h' with h1 h2
    exact Or.inl ⟨h1, h2⟩
  | cons p rest ih =>
    intro b' q' h
    obtain ⟨pb, pq⟩ := p
    rw [assocSet] at h
    by_cases hb : pb = b
    · rw [if_pos hb] at h
      rcases List.mem_cons.mp h with h' | h'
      · injection h' with h1 h2
        exact Or.inl ⟨h1, h2⟩
      · exact Or.inr (List.mem_cons_of_mem _ h')
    · rw [if_neg hb] at h
      rcases List.mem_cons.mp h with h' | h'
      · exact Or.inr (h' ▸ List.mem_cons_self _ _)
      · rcases ih b' q' h' with h'' | h''
        · exact Or.inl h''
        · exact Or.inr (List.mem_cons_of_mem _ h'')

theorem assocGet_assocSet_self {Vec D : Type} [DecidableEq Vec] (b : Vec)
    (q : List (Vec × D)) :
    ∀ layer, assocGet b (assocSet b q layer) = some q := by
  intro layer
  induction layer with
  | nil => simp [assocSet, assocGet]
  | cons p rest ih =>
    obtain ⟨pb, pq⟩ := p
    rw [assocSet]
    by_cases hb : pb = b
    · rw [if_pos hb]
      simp [assocGet]
    · rw [if_neg hb]
      rw [assocGet] at ih ⊢
      rw [List.find?_cons_of_neg _ (by simp [hb])]
      exact ih

theorem assocGet_assocSet_other {Vec D : Type} [DecidableEq Vec]
    {b b' : Vec} (q : List (Vec × D)) (hne : b' ≠ b) :
    ∀ layer, assocGet b' (assocSet b q layer) = assocGet b' layer := by
  intro layer
  induction layer with
  | nil => simp [assocSet, assocGet, hne, Ne.symm hne]
  | cons p rest ih =>
    obtain ⟨pb, pq⟩ := p
    rw [assocSet]
    by_cases hb : pb = b
    · rw [if_pos hb]
      subst hb
      rw [assocGet, assocGet]
      rw [List.find?_cons_of_neg _ (by simp [Ne.symm hne]),
        List.find?_cons_of_neg _ (by simp [Ne.symm hne])]
    · rw [if_neg hb]
      by_cases hb' : pb = b'
      · subst hb'
        rw [assocGet, assocGet, List.find?_cons_of_pos _ (by simp),
          List.find?_cons_of_pos _ (by simp)]
      · rw [assocGet, assocGet, List.find?_cons_of_neg _ (by simp [hb']),
          List.find?_cons_of_neg _ (by simp [hb'])]
        exact ih

theorem set_links_eq_some {Q Vec D : Type} [DecidableEq Vec]
    {g g' : GraphMem Vec D} {b : Vec} {links : List (Vec × D)} {lc : Nat}
    {tr : List (Call Q Vec D)}
    (h : GraphMem.set_links g b links lc = some (g', tr)) :
    tr = [Call.setLinks b links lc] ∧ g'.entry_point = g.entry_point ∧
    g'.layers.length = g.layers.length ∧
    (∀ lc', lc' ≠ lc → g'.layers.get? lc' = g.layers.get? lc') ∧
    (∃ layer, g.layers.get? lc = some layer ∧
      g'.layers.get? lc = some (assocSet b links layer)) := by
  unfold GraphMem.set_links at h
  cases hl : g.layers.get? lc with
  | none => rw [hl] at h; cases h
  | some layer =>
    rw [hl] at h
    injection h with h1
    injection h1 with h2 h3
    subst h2
    subst h3
    have hlen : lc < g.layers.length := by
      by_contra hc
      rw [List.get?_eq_getElem?, List.getElem?_eq_none (by omega)] at hl
      cases hl
    refine ⟨rfl, rfl, by simp, ?_, layer, rfl, ?_⟩
    · intro lc' hne
      simp only [List.get?_eq_getElem?]
      rw [List.getElem?_set_ne (by omega)]
    · simp only [List.get?_eq_getElem?] at hl ⊢
      rw [List.getElem?_set_self (by omega)]

theorem storedLinks_set_links_self {Q Vec D : Type} [DecidableEq Vec]
    {g g' : GraphMem Vec D} {b : Vec} {links : List (Vec × D)} {lc : Nat}
    {tr : List (Call Q Vec D)}
    (h : GraphMem.set_links g b links lc = some (g', tr)) :
    g'.storedLinks b lc = some links := by
  obtain ⟨-, -, -, -, layer, -, hset⟩ := set_links_eq_some h
  unfold GraphMem.storedLinks
  rw [hset]
  simp [assocGet_assocSet_self]

theorem storedLinks_set_links_other {Q Vec D : Type} [DecidableEq Vec]
    {g g' : GraphMem Vec D} {b b' : Vec} {links : List (Vec × D)}
    {lc lc' : Nat} {tr : List (Call Q Vec D)}
    (h : GraphMem.set_links g b links lc = some (g', tr))
    (hne : b' ≠ b ∨ lc' ≠ lc) :
    g'.storedLinks b' lc' = g.storedLinks b' lc' := by
  obtain ⟨-, -, -, hother, layer, hold, hset⟩ := set_links_eq_some h
  unfold GraphMem.storedLinks
  by_cases hlc : lc' = lc
  · subst hlc
    rcases hne with hb | hl
    · simp only [hset, hold]
      simp [assocGet_assocSet_other _ hb]
    · exact absurd rfl hl
  · rw [hother lc' hlc]

/-! ## Degree-cap lemmas (claim C2) -/

theorem traceOK_mono {C α : Type} {P P' : C → Prop} {x : TraceM C α}
    (h : ∀ c, P c → P' c) (hx : TraceOK P x) : TraceOK P' x :=
  fun a tr he c hc => h c (hx a tr he c hc)

theorem trim_length_le {Vec D : Type} (q : List (Vec × D)) (k : Nat) :
    (FurthestQueue.trim_to_k_nearest q k).length ≤ k := by
  simp only [FurthestQueue.trim_to_k_nearest, List.length_take]
  omega

theorem capOK_set_links {Q Vec D : Type} [DecidableEq Vec] (p : Params)
    (g : GraphMem Vec D) (b : Vec) (links : List (Vec × D)) (lc : Nat)
    (hlen : links.length ≤ capAt p lc) :
    TraceOK (fun c : Call Q Vec D => callCapOK p c = true)
      (GraphMem.set_links g b links lc) := by
  unfold GraphMem.set_links
  cases g.layers.get? lc
  · exact traceOK_tfail _
  · exact traceOK_emit (by simp only [callCapOK, decide_eq_true_eq]; exact hlen)

theorem capOK_set_entry_point {Q Vec D : Type} [DecidableEq Vec] (p : Params)
    (g : GraphMem Vec D) (ep : EntryPoint Vec) :
    TraceOK (fun c : Call Q Vec D => callCapOK p c = true)
      (GraphMem.set_entry_point g ep) := by
  unfold GraphMem.set_entry_point
  cases g.entry_point
  · exact traceOK_emit rfl
  · dsimp only
    split
    · exact traceOK_emit rfl
    · exact traceOK_tfail _

theorem capOK_backLoop {Q Vec D : Type} [DecidableEq Vec] (p : Params)
    (st : Store Q Vec D) (q : Vec) (lc maxLinks : Nat)
    (hcap : maxLinks ≤ capAt p lc) :
    ∀ (nbrs : List (Vec × D)) (g : GraphMem Vec D),
      TraceOK (fun c : Call Q Vec D => callCapOK p c = true)
        (backLoop st q lc maxLinks g nbrs) := by
  intro nbrs
  induction nbrs with
  | nil => intro g; exact traceOK_tpure _ _
  | cons hd rest ih =>
    intro g
    obtain ⟨n, nq⟩ := hd
    rw [backLoop]
    refine traceOK_tbind
      (traceOK_mono (callCapOK_of_not_setLinks p) (noSetLinks_get_links g n lc))
      fun links => ?_
    refine traceOK_tbind (traceOK_emit rfl) fun links' => ?_
    refine traceOK_tbind
      (capOK_set_links p g n _ lc (Nat.le_trans (trim_length_le links' maxLinks) hcap))
      fun g' => ih g'

theorem capOK_connect_bidir {Q Vec D : Type} [DecidableEq Vec] (p : Params)
    (st : Store Q Vec D) (g : GraphMem Vec D) (q : Vec)
    (nbrs : List (Vec × D)) (lc : Nat)
    (hM0 : p.M ≤ p.Mmax0) (hM : p.M ≤ p.Mmax) :
    TraceOK (fun c : Call Q Vec D => callCapOK p c = true)
      (connect_bidir st p g q nbrs lc) := by
  unfold connect_bidir
  refine traceOK_tbind (capOK_backLoop p st q lc _ (Nat.le_refl _) _ g)
    fun g' => ?_
  refine capOK_set_links p g' q _ lc ?_
  refine Nat.le_trans (trim_length_le nbrs p.M) ?_
  unfold capAt
  split
  · exact hM0
  · exact hM

theorem capOK_connectLoop {Q Vec D : Type} [DecidableEq Vec] (p : Params)
    (st : Store Q Vec D) (q : Vec)
    (hM0 : p.M ≤ p.Mmax0) (hM : p.M ≤ p.Mmax) :
    ∀ (links : List (List (Vec × D))) (g : GraphMem Vec D) (cnt lc : Nat),
      TraceOK (fun c : Call Q Vec D => callCapOK p c = true)
        (connectLoop st p q g links cnt lc) := by
  intro links
  induction links with
  | nil => intro g cnt lc; exact traceOK_tpure _ _
  | cons nbrs rest ih =>
    intro g cnt lc
    cases cnt with
    | zero => exact traceOK_tpure _ _
    | succ cnt =>
      rw [connectLoop]
      exact traceOK_tbind (capOK_connect_bidir p st g q nbrs lc hM0 hM)
        fun g' => ih g' cnt (lc + 1)

theorem capOK_insert_from_search_results {Q Vec D : Type} [DecidableEq Vec]
    (st : Store Q Vec D) (s : HawkSearcher Vec D) (v : Vec)
    (links : List (List (Vec × D)))
    (hM0 : s.params.M ≤ s.params.Mmax0) (hM : s.params.M ≤ s.params.Mmax) :
    TraceOK (fun c : Call Q Vec D => callCapOK s.params c = true)
      (insert_from_search_results st s v links) := by
  intro a tr h
  simp only [insert_from_search_results, HawkSearcher.select_layer] at h
  rw [tbind_eq_some] at h
  obtain ⟨g1, t1, t2, hconn, hbranch, htr⟩ := h
  subst htr
  intro c hc
  rcases List.mem_append.mp hc with h1 | h2
  · exact capOK_connectLoop s.params st v hM0 hM links s.graph _ 0 g1 t1
      hconn c h1
  · by_cases hcnd : links.length ≤ s.rngStream s.rngPos
    · rw [if_pos hcnd, tbind_eq_some] at hbranch
      obtain ⟨g2, t3, t4, hset, hpure, htr2⟩ := hbranch
      subst htr2
      rcases List.mem_append.mp h2 with h3 | h4
      · exact capOK_set_entry_point s.params g1 _ g2 t3 hset c h3
      · rw [tpure_eq_some] at hpure
        obtain ⟨-, h5⟩ := hpure
        subst h5
        cases h4
    · rw [if_neg hcnd, tpure_eq_some] at hbranch
      obtain ⟨-, h5⟩ := hbranch
      subst h5
      cases h2

theorem traceOK_tbind_strong {C α β : Type} {P : C → Prop} {x : TraceM C α}
    {f : α → TraceM C β} (hx : TraceOK P x)
    (hf : ∀ a t, x = some (a, t) → TraceOK P (f a)) :
    TraceOK P (tbind x f) := by
  intro b tr h c hc
  rw [tbind_eq_some] at h
  obtain ⟨a, t1, t2, hx', hf', htr⟩ := h
  subst htr
  rcases List.mem_append.mp hc with h1 | h2
  · exact hx a t1 hx' c h1
  · exact hf a t1 hx' b t2 hf' c h2

theorem capOK_runOps {Q Vec D : Type} [DecidableEq Vec] (p : Params)
    (st : Store Q Vec D) (fuel : Nat)
    (hM0 : p.M ≤ p.Mmax0) (hM : p.M ≤ p.Mmax) :
    ∀ (ops : List (SOp Q Vec D)) (s : HawkSearcher Vec D), s.params = p →
      TraceOK (fun c : Call Q Vec D => callCapOK p c = true)
        (runOps st fuel s ops) := by
  intro ops
  induction ops with
  | nil => intro s hp; exact traceOK_tpure _ _
  | cons op rest ih =>
    intro s hp
    cases op with
    | search q =>
      rw [runOps]
      refine traceOK_tbind
        (traceOK_mono (callCapOK_of_not_setLinks p)
          (noSetLinks_search_to_insert st s q fuel)) fun ls => ?_
      exact traceOK_tbind (ih s hp) fun r => traceOK_tpure _ _
    | insert v links =>
      rw [runOps]
      refine traceOK_tbind_strong ?_ fun sl t hins => ?_
      · have := capOK_insert_from_search_results st s v links
          (by rw [hp]; exact hM0) (by rw [hp]; exact hM)
        rw [hp] at this
        exact this
      · have hins2 : insert_from_search_results st s v links =
            some ((sl.1, sl.2), t) := by rw [hins]
        obtain ⟨f1, -, -, -⟩ := insert_from_search_results_fields hins2
      -- params are preserved by the insert, so the tail runs with the same p
        exact traceOK_tbind (ih sl.1 (by rw [f1, hp])) fun r =>
          traceOK_tpure _ _
    | checkMatch links =>
      rw [runOps]
      refine traceOK_tbind
        (traceOK_mono (callCapOK_of_not_setLinks p)
          (noSetLinks_hawk_is_match st links)) fun b => ?_
      exact traceOK_tbind (ih s hp) fun r => traceOK_tpure _ _

theorem assocGet_mem {Vec D : Type} [DecidableEq Vec] {b : Vec}
    {layer : List (Vec × List (Vec × D))} {q0 : List (Vec × D)}
    (h : assocGet b layer = some q0) : (b, q0) ∈ layer := by
  unfold assocGet at h
  cases hf : layer.find? (fun p => p.1 = b) with
  | none => rw [hf] at h; cases h
  | some pr =>
    rw [hf] at h
    injection h with h1
    have hm := List.mem_of_find?_eq_some hf
    have hp := List.find?_some hf
    simp only [decide_eq_true_eq] at hp
    have : (b, q0) = pr := by
      rw [← hp, ← h1]
    rw [this]
    exact hm

theorem degOK_set_links {Q Vec D : Type} [DecidableEq Vec] {p : Params}
    {g g' : GraphMem Vec D} {b : Vec} {links : List (Vec × D)} {lc : Nat}
    {tr : List (Call Q Vec D)} (hd : degOK p g)
    (hlen : links.length ≤ capAt p lc)
    (h : GraphMem.set_links g b links lc = some (g', tr)) : degOK p g' := by
  intro lc' layer' hget' b' q' hmem
  obtain ⟨-, -, -, hother, layer, hold, hset⟩ := set_links_eq_some h
  by_cases hlc : lc' = lc
  · subst hlc
    rw [hset] at hget'
    injection hget' with h1
    subst h1
    rcases mem_assocSet b links layer b' q' hmem with ⟨-, h2⟩ | hmem'
    · subst h2
      exact hlen
    · exact hd lc' layer hold b' q' hmem'
  · rw [hother lc' hlc] at hget'
    exact hd lc' layer' hget' b' q' hmem

theorem degOK_set_entry_point {Q Vec D : Type} [DecidableEq Vec] {p : Params}
    {g g' : GraphMem Vec D} {ep : EntryPoint Vec} {tr : List (Call Q Vec D)}
    (hd : degOK p g) (h : GraphMem.set_entry_point g ep = some (g', tr)) :
    degOK p g' := by
  obtain ⟨-, hlayers, -⟩ := set_entry_point_fields h
  intro lc layer hget b q hmem
  rw [hlayers, List.get?_eq_getElem?] at hget
  by_cases hlc : lc < g.layers.length
  · rw [List.getElem?_append_left hlc] at hget
    exact hd lc layer (by rw [List.get?_eq_getElem?]; exact hget) b q hmem
  · rw [List.getElem?_append_right (by omega), List.getElem?_replicate] at hget
    split at hget
    · injection hget with h1
      subst h1
      cases hmem
    · cases hget

theorem degOK_backLoop {Q Vec D : Type} [DecidableEq Vec] {p : Params}
    (st : Store Q Vec D) (q : Vec) (lc maxLinks : Nat)
    (hcap : maxLinks ≤ capAt p lc) :
    ∀ (nbrs : List (Vec × D)) (g g' : GraphMem Vec D)
      (tr : List (Call Q Vec D)),
      degOK p g → backLoop st q lc maxLinks g nbrs = some (g', tr) →
      degOK p g' := by
  intro nbrs
  induction nbrs with
  | nil =>
    intro g g' tr hd h
    rw [backLoop, tpure_eq_some] at h
    obtain ⟨h1, -⟩ := h
    subst h1
    exact hd
  | cons hd0 rest ih =>
    intro g g' tr hd h
    obtain ⟨n, nq⟩ := hd0
    rw [backLoop, tbind_eq_some] at h
    obtain ⟨links, t1, t2, -, h, -⟩ := h
    rw [tbind_eq_some] at h
    obtain ⟨links', t3, t4, -, h, -⟩ := h
    rw [tbind_eq_some] at h
    obtain ⟨g1, t5, t6, hset, h, -⟩ := h
    exact ih g1 g' t6
      (degOK_set_links hd (Nat.le_trans (trim_length_le links' maxLinks) hcap)
        hset) h

theorem degOK_connect_bidir {Q Vec D : Type} [DecidableEq Vec] {p : Params}
    (st : Store Q Vec D) {g g' : GraphMem Vec D} (q : Vec)
    (nbrs : List (Vec × D)) (lc : Nat) {tr : List (Call Q Vec D)}
    (hM0 : p.M ≤ p.Mmax0) (hM : p.M ≤ p.Mmax) (hd : degOK p g)
    (h : connect_bidir st p g q nbrs lc = some (g', tr)) : degOK p g' := by
  unfold connect_bidir at h
  rw [tbind_eq_some] at h
  obtain ⟨g1, t1, t2, hback, hset, -⟩ := h
  refine degOK_set_links (degOK_backLoop st q lc _ (Nat.le_refl _) _ g g1 t1
    hd hback) ?_ hset
  refine Nat.le_trans (trim_length_le nbrs p.M) ?_
  unfold capAt
  split
  · exact hM0
  · exact hM

theorem degOK_connectLoop {Q Vec D : Type} [DecidableEq Vec] {p : Params}
    (st : Store Q Vec D) (q : Vec) (hM0 : p.M ≤ p.Mmax0)
    (hM : p.M ≤ p.Mmax) :
    ∀ (links : List (List (Vec × D))) (g g' : GraphMem Vec D)
      (cnt lc : Nat) (tr : List (Call Q Vec D)),
      degOK p g → connectLoop st p q g links cnt lc = some (g', tr) →
      degOK p g' := by
  intro links
  induction links with
  | nil =>
    intro g g' cnt lc tr hd h
    rw [connectLoop, tpure_eq_some] at h
    obtain ⟨h1, -⟩ := h
    subst h1
    exact hd
  | cons nbrs rest ih =>
    intro g g' cnt lc tr hd h
    cases cnt with
    | zero =>
      rw [connectLoop, tpure_eq_some] at h
      obtain ⟨h1, -⟩ := h
      subst h1
      exact hd
    | succ cnt =>
      rw [connectLoop, tbind_eq_some] at h
      obtain ⟨g1, t1, t2, hcb, h, -⟩ := h
      exact ih g1 g' cnt (lc + 1) t2
        (degOK_connect_bidir st q nbrs lc hM0 hM hd hcb) h

theorem degOK_insert_from_search_results {Q Vec D : Type} [DecidableEq Vec]
    {st : Store Q Vec D} {s s1 : HawkSearcher Vec D} {v : Vec}
    {links : List (List (Vec × D))} {lvl : Nat} {tr : List (Call Q Vec D)}
    (hM0 : s.params.M ≤ s.params.Mmax0) (hM : s.params.M ≤ s.params.Mmax)
    (hd : degOK s.params s.graph)
    (h : insert_from_search_results st s v links = some ((s1, lvl), tr)) :
    degOK s.params s1.graph := by
  simp only [insert_from_search_results, HawkSearcher.select_layer] at h
  rw [tbind_eq_some] at h
  obtain ⟨g1, t1, t2, hconn, hbranch, -⟩ := h
  have hd1 : degOK s.params g1 :=
    degOK_connectLoop st v hM0 hM links s.graph g1 _ 0 t1 hd hconn
  by_cases hcnd : links.length ≤ s.rngStream s.rngPos
  · rw [if_pos hcnd, tbind_eq_some] at hbranch
    obtain ⟨g2, t3, t4, hset, hpure, -⟩ := hbranch
    rw [tpure_eq_some] at hpure
    obtain ⟨h1, -⟩ := hpure
    injection h1 with h2 h3
    subst h2
    exact degOK_set_entry_point hd1 hset
  · rw [if_neg hcnd, tpure_eq_some] at hbranch
    obtain ⟨h1, -⟩ := hbranch
    injection h1 with h2 h3
    subst h2
    exact hd1

theorem degOK_runOps {Q Vec D : Type} [DecidableEq Vec] (p : Params)
    (st : Store Q Vec D) (fuel : Nat) (hM0 : p.M ≤ p.Mmax0)
    (hM : p.M ≤ p.Mmax) :
    ∀ (ops : List (SOp Q Vec D)) (s s' : HawkSearcher Vec D)
      (rs : List (OpResult Vec D)) (tr : List (Call Q Vec D)),
      s.params = p → degOK p s.graph →
      runOps st fuel s ops = some ((s', rs), tr) → degOK p s'.graph := by
  intro ops
  induction ops with
  | nil =>
    intro s s' rs tr hp hd h
    rw [runOps, tpure_eq_some] at h
    obtain ⟨h1, -⟩ := h
    injection h1 with h2 h3
    subst h2
    exact hd
  | cons op rest ih =>
    intro s s' rs tr hp hd h
    cases op with
    | search q =>
      rw [runOps, tbind_eq_some] at h
      obtain ⟨ls, t1, t2, -, h, -⟩ := h
      rw [tbind_eq_some] at h
      obtain ⟨r, t3, t4, hrest, hpure, -⟩ := h
      rw [tpure_eq_some] at hpure
      obtain ⟨h1, -⟩ := hpure
      injection h1 with h2 h3
      subst h2
      exact ih s r.1 r.2 t3 hp hd (by rw [hrest])
    | insert v links =>
      rw [runOps, tbind_eq_some] at h
      obtain ⟨sl, t1, t2, hins, h, -⟩ := h
      rw [tbind_eq_some] at h
      obtain ⟨r, t3, t4, hrest, hpure, -⟩ := h
      rw [tpure_eq_some] at hpure
      obtain ⟨h1, -⟩ := hpure
      injection h1 with h2 h3
      subst h2
      have hins' : insert_from_search_results st s v links =
          some ((sl.1, sl.2), t1) := by rw [hins]
      obtain ⟨f1, -, -, -⟩ := insert_from_search_results_fields hins'
      have hd1 : degOK p sl.1.graph := by
        have := degOK_insert_from_search_results
          (by rw [hp]; exact hM0) (by rw [hp]; exact hM)
          (by rw [hp]; exact hd) hins'
        rw [hp] at this
        exact this
      exact ih sl.1 r.1 r.2 t3 (by rw [f1, hp]) hd1 (by rw [hrest])
    | checkMatch links =>
      rw [runOps, tbind_eq_some] at h
      obtain ⟨b, t1, t2, -, h, -⟩ := h
      rw [tbind_eq_some] at h
      obtain ⟨r, t3, t4, hrest, hpure, -⟩ := h
      rw [tpure_eq_some] at hpure
      obtain ⟨h1, -⟩ := hpure
      injection h1 with h2 h3
      subst h2
      exact ih s r.1 r.2 t3 hp hd (by rw [hrest])

theorem get_links_length_of_degOK {Q Vec D : Type} [DecidableEq Vec]
    {p : Params} {g : GraphMem Vec D} {b : Vec} {lc : Nat}
    {q : List (Vec × D)} {trg : List (Call Q Vec D)} (hd : degOK p g)
    (h : GraphMem.get_links g b lc = some (q, trg)) :
    q.length ≤ capAt p lc := by
  unfold GraphMem.get_links GraphMem.storedLinks at h
  cases hl : g.layers.get? lc with
  | none => rw [hl] at h; cases h
  | some layer =>
    rw [hl] at h
    dsimp only at h
    injection h with h1
    injection h1 with h2 h3
    cases hg : assocGet b layer with
    | none =>
      rw [hg] at h2
      subst h2
      exact Nat.zero_le _
    | some q0 =>
      rw [hg] at h2
      subst h2
      exact hd lc layer hl b q0 (assocGet_mem hg)

/-! ## Claim C2: degree caps on every stored queue -/

/-- Claim C2: during any successful sequence of searcher operations with the
default parameters, every queue handed to `set_links` (visible in the
backend-call trace) has length at most `Mmax0` at layer 0 and `Mmax` above;
consequently, if the starting graph satisfies the cap invariant, so does the
final graph, and every queue returned by `get_links` obeys the same cap. -/
theorem hawk_C2_degree_caps {Q Vec D : Type} [DecidableEq Vec]
    (st : Store Q Vec D) (fuel : Nat) (s s' : HawkSearcher Vec D)
    (ops : List (SOp Q Vec D)) (rs : List (OpResult Vec D))
    (tr : List (Call Q Vec D))
    (hparams : s.params = defaultParams)
    (hrun : runOps st fuel s ops = some ((s', rs), tr)) :
    (∀ c ∈ tr, callCapOK s.params c = true) ∧
    (degOK s.params s.graph →
      degOK s.params s'.graph ∧
      ∀ b lc q (trg : List (Call Q Vec D)),
        GraphMem.get_links s'.graph b lc = some (q, trg) →
        q.length ≤ capAt s.params lc) := by
  have hM0 : s.params.M ≤ s.params.Mmax0 := by
    rw [hparams]
    exact Nat.le_refl _
  have hM : s.params.M ≤ s.params.Mmax := by
    rw [hparams]
    exact Nat.le_refl _
  constructor
  · exact fun c hc =>
      capOK_runOps s.params st fuel hM0 hM ops s rfl _ tr hrun c hc
  · intro hd
    have hd' := degOK_runOps s.params st fuel hM0 hM ops s s' rs tr rfl hd hrun
    exact ⟨hd', fun b lc q trg h => get_links_length_of_degOK hd' h⟩

/-- Witness for C2: the concrete five-operation run of `c10ops`. -/
theorem hawk_C2_degree_caps_witness :
    ∃ s' rs tr, runOps storeNat 8 c10s c10ops = some ((s', rs), tr) ∧
      (∀ c ∈ tr, callCapOK c10s.params c = true) ∧
      degOK c10s.params s'.graph := by
  have hs : (runOps storeNat 8 c10s c10ops).isSome = true := by rfl
  obtain ⟨⟨⟨s', rs⟩, tr⟩, hrun⟩ := Option.isSome_iff_exists.mp hs
  have hd0 : degOK c10s.params c10s.graph := by
    intro lc layer h
    simp [c10s, GraphMem.new] at h
  obtain ⟨p1, p2⟩ := hawk_C2_degree_caps storeNat 8 c10s s' c10ops rs tr
    rfl hrun
  exact ⟨s', rs, tr, hrun, p1, (p2 hd0).1⟩

/-! ## Claim C7: no duplicate distance evaluations inside one layer search -/

theorem lessThanT_eq_some {Q Vec D : Type} {st : Store Q Vec D} {d1 d2 : D}
    {b : Bool} {tr : List (Call Q Vec D)}
    (h : lessThanT st d1 d2 = some (b, tr)) :
    b = st.lessThan d1 d2 ∧ tr = [Call.lessThan d1 d2] := by
  unfold lessThanT at h
  injection h with h1
  injection h1 with h2 h3
  exact ⟨h2.symm, h3.symm⟩

theorem get_links_eq_some {Q Vec D : Type} [DecidableEq Vec]
    {g : GraphMem Vec D} {b : Vec} {lc : Nat} {q : List (Vec × D)}
    {tr : List (Call Q Vec D)}
    (h : GraphMem.get_links g b lc = some (q, tr)) :
    g.storedLinks b lc = some q ∧ tr = [Call.getLinks b lc] := by
  unfold GraphMem.get_links at h
  cases hs : g.storedLinks b lc with
  | none => rw [hs] at h; cases h
  | some q0 =>
    rw [hs] at h
    injection h with h1
    injection h1 with h2 h3
    exact ⟨by rw [h2], h3.symm⟩

theorem evalDistanceBatchT_eq_some {Q Vec D : Type} {st : Store Q Vec D}
    {q : Q} {vs : List Vec} {ds : List D} {tr : List (Call Q Vec D)}
    (h : evalDistanceBatchT st q vs = some (ds, tr)) :
    ds = vs.map (st.evalDistance q) ∧ tr = [Call.evalDistanceBatch q vs] := by
  unfold evalDistanceBatchT at h
  injection h with h1
  injection h1 with h2 h3
  exact ⟨h2.symm, h3.symm⟩

/-- Is this call an `eval_distance_batch`? -/
def isBatchCall {Q Vec D : Type} : Call Q Vec D → Bool
  | Call.evalDistanceBatch _ _ => true
  | _ => false

theorem batchesOf_eq_nil {Q Vec D : Type} {tr : List (Call Q Vec D)}
    (h : ∀ c ∈ tr, isBatchCall c = false) : batchesOf tr = [] := by
  rw [batchesOf, List.filterMap_eq_nil_iff]
  intro c hc
  have := h c hc
  cases c <;> simp_all [isBatchCall]

theorem batchesOf_append {Q Vec D : Type} (t1 t2 : List (Call Q Vec D)) :
    batchesOf (t1 ++ t2) = batchesOf t1 ++ batchesOf t2 := by
  unfold batchesOf
  rw [List.filterMap_append]

theorem noBatch_innerStep {Q Vec D : Type} (st : Store Q Vec D) (e : Vec)
    (eq : D) (C W : List (Vec × D)) :
    TraceOK (fun c : Call Q Vec D => isBatchCall c = false)
      (innerStep st e eq C W) := by
  unfold innerStep
  refine traceOK_tbind (traceOK_emit rfl) fun C' => ?_
  refine traceOK_tbind (traceOK_emit rfl) fun W' => ?_
  cases W'.getLast?
  · exact traceOK_tfail _
  · exact traceOK_tpure _ _

theorem noBatch_innerLoop {Q Vec D : Type} (st : Store Q Vec D) (ef : Nat) :
    ∀ (l : List (Vec × D)) (C W : List (Vec × D)) (fq : D),
      TraceOK (fun c : Call Q Vec D => isBatchCall c = false)
        (innerLoop st ef l C W fq) := by
  intro l
  induction l with
  | nil => intro C W fq; exact traceOK_tpure _ _
  | cons p rest ih =>
    intro C W fq
    obtain ⟨e, eq⟩ := p
    rw [innerLoop]
    by_cases hW : W.length = ef
    · rw [if_pos hW]
      refine traceOK_tbind (traceOK_emit rfl) fun b => ?_
      by_cases hb : b
      · rw [if_pos hb]
        exact traceOK_tbind (noBatch_innerStep st e eq C W.dropLast)
          fun r => ih r.1 r.2.1 r.2.2
      · rw [if_neg hb]
        exact ih C W fq
    · rw [if_neg hW]
      exact traceOK_tbind (noBatch_innerStep st e eq C W)
        fun r => ih r.1 r.2.1 r.2.2

theorem filterNew_spec {Vec : Type} [DecidableEq Vec] :
    ∀ (es v : List Vec),
      (filterNew v es).2.Nodup ∧ (∀ e ∈ (filterNew v es).2, e ∉ v) ∧
      (∀ x, x ∈ (filterNew v es).1 ↔ x ∈ v ∨ x ∈ (filterNew v es).2) := by
  intro es
  induction es with
  | nil =>
    intro v
    refine ⟨List.nodup_nil, ?_, ?_⟩
    · intro e he
      cases he
    · intro x
      simp [filterNew]
  | cons e rest ih =>
    intro v
    rw [filterNew]
    by_cases hv : e ∈ v
    · rw [if_pos hv]
      exact ih v
    · rw [if_neg hv]
      obtain ⟨h1, h2, h3⟩ := ih (e :: v)
      refine ⟨?_, ?_, ?_⟩
      · rw [List.nodup_cons]
        refine ⟨fun hc => ?_, h1⟩
        exact absurd (List.mem_cons_self e v) (h2 e hc)
      · intro x hx
        rcases List.mem_cons.mp hx with rfl | hx'
        · exact hv
        · intro hxv
          exact h2 x hx' (List.mem_cons_of_mem _ hxv)
      · intro x
        rw [h3 x]
        constructor
        · intro hc
          rcases hc with hc | hc
          · rcases List.mem_cons.mp hc with rfl | hc'
            · exact Or.inr (List.mem_cons_self _ _)
            · exact Or.inl hc'
          · exact Or.inr (List.mem_cons_of_mem _ hc)
        · intro hc
          rcases hc with hc | hc
          · exact Or.inl (List.mem_cons_of_mem _ hc)
          · rcases List.mem_cons.mp hc with rfl | hc'
            · exact Or.inl (List.mem_cons_self _ _)
            · exact Or.inr hc'

theorem searchLayerLoop_batches {Q Vec D : Type} [DecidableEq Vec]
    (st : Store Q Vec D) (g : GraphMem Vec D) (q : Q) (ef lc : Nat) :
    ∀ (fuel : Nat) (v : List Vec) (C W : List (Vec × D)) (fq : D)
      (W' : List (Vec × D)) (tr : List (Call Q Vec D)),
      searchLayerLoop st g q ef lc fuel v C W fq = some (W', tr) →
      (batchesOf tr).flatten.Nodup ∧ ∀ e ∈ (batchesOf tr).flatten, e ∉ v := by
  intro fuel
  induction fuel with
  | zero =>
    intro v C W fq W' tr h
    rw [searchLayerLoop] at h
    split at h
    · rw [tpure_eq_some] at h
      obtain ⟨-, h2⟩ := h
      subst h2
      simp [batchesOf]
    · cases h
  | succ fuel ih =>
    intro v C W fq W' tr h
    rw [searchLayerLoop] at h
    split at h
    · rw [tpure_eq_some] at h
      obtain ⟨-, h2⟩ := h
      subst h2
      simp [batchesOf]
    · rename_i c cq heq
      rw [tbind_eq_some] at h
      obtain ⟨stop, t1, t2, hlt, h, htr⟩ := h
      subst htr
      obtain ⟨-, ht1⟩ := lessThanT_eq_some hlt
      subst ht1
      split at h
      · rw [tpure_eq_some] at h
        obtain ⟨-, h2⟩ := h
        subst h2
        simp [batchesOf]
      · rw [tbind_eq_some] at h
        obtain ⟨cLinks, t3, t4, hgl, h, htr2⟩ := h
        subst htr2
        obtain ⟨-, ht3⟩ := get_links_eq_some hgl
        subst ht3
        rw [tbind_eq_some] at h
        obtain ⟨dists, t5, t6, hbt, h, htr3⟩ := h
        subst htr3
        obtain ⟨-, ht5⟩ := evalDistanceBatchT_eq_some hbt
        subst ht5
        rw [tbind_eq_some] at h
        obtain ⟨r, t7, t8, hinner, h, htr4⟩ := h
        subst htr4
        have hno :=
          noBatch_innerLoop st ef
            ((filterNew v (cLinks.map Prod.fst)).2.zip dists)
            C.dropLast W fq r t7 hinner
        have hbt7 : batchesOf t7 = [] := batchesOf_eq_nil hno
        obtain ⟨ihn, ihv⟩ := ih _ r.1 r.2.1 r.2.2 W' t8 h
        obtain ⟨hEn, hEv, hEiff⟩ := filterNew_spec (cLinks.map Prod.fst) v
        have hbatches : batchesOf ([Call.lessThan fq cq] ++
            ([Call.getLinks c lc] ++
              ([Call.evalDistanceBatch q
                  (filterNew v (cLinks.map Prod.fst)).2] ++ (t7 ++ t8)))) =
            (filterNew v (cLinks.map Prod.fst)).2 :: batchesOf t8 := by
          rw [batchesOf_append, batchesOf_append, batchesOf_append,
            batchesOf_append, hbt7]
          rfl
        rw [hbatches, List.flatten_cons]
        constructor
        · rw [List.nodup_append]
          refine ⟨hEn, ihn, ?_⟩
          intro a ha hb
          exact ihv a hb ((hEiff a).mpr (Or.inr ha))
        · intro e he
          rcases List.mem_append.mp he with hE | hrest
          · exact hEv e hE
          · intro hev
            exact ihv e hrest ((hEiff e).mpr (Or.inl hev))

/-- Claim C7: within a single successful `search_layer` call, the batches
handed to `eval_distance_batch` (read off the backend-call trace) are
pairwise disjoint, duplicate-free, and disjoint from the vectors initially
present in `W` — so no `(query, vector)` distance is evaluated twice. -/
theorem hawk_C7_no_duplicate_distance {Q Vec D : Type} [DecidableEq Vec]
    (st : Store Q Vec D) (g : GraphMem Vec D) (q : Q) (W : List (Vec × D))
    (ef lc fuel : Nat) (W' : List (Vec × D)) (tr : List (Call Q Vec D))
    (h : search_layer st g q W ef lc fuel = some (W', tr)) :
    (batchesOf tr).flatten.Nodup ∧
    ∀ e ∈ (batchesOf tr).flatten, e ∉ W.map Prod.fst := by
  unfold search_layer at h
  split at h
  · cases h
  · exact searchLayerLoop_batches st g q ef lc fuel _ _ _ _ W' tr h

/-- A concrete two-vector graph for the C7 witness. -/
def gC7 : GraphMem Nat Nat :=
  { entry_point := some ⟨5, 1⟩, layers := [[(5, [(6, 2)]), (6, [(5, 2)])]] }

/-- Witness for C7: a concrete layer search that expands both vectors. -/
theorem hawk_C7_no_duplicate_distance_witness :
    ∃ W' tr, search_layer storeNat gC7 7 [(5, 2)] 32 0 5 = some (W', tr) ∧
      (batchesOf tr).flatten.Nodup ∧
      ∀ e ∈ (batchesOf tr).flatten, e ∉ ([(5, 2)] : List (Nat × Nat)).map
        Prod.fst := by
  have hs : (search_layer storeNat gC7 7 [(5, 2)] 32 0 5).isSome = true := by
    rfl
  obtain ⟨⟨W', tr⟩, h⟩ := Option.isSome_iff_exists.mp hs
  obtain ⟨h1, h2⟩ := hawk_C7_no_duplicate_distance storeNat gC7 7 [(5, 2)]
    32 0 5 W' tr h
  exact ⟨W', tr, h, h1, h2⟩

/-! ## Claim C1: bidirectional links at insert time -/

theorem search_sorted_le {D : Type} (lt : D → D → Bool) (ds : List D)
    (t : D) : search_sorted lt ds t ≤ ds.length :=
  (binSearchLoop_bounds lt ds t ds.length 0 ds.length (by omega)
    (by omega)).2

theorem insertAt_length {α : Type} (xs : List α) (i : Nat) (x : α)
    (h : i ≤ xs.length) : (insertAt xs i x).length = xs.length + 1 := by
  unfold insertAt
  rw [List.length_append, List.length_cons, List.length_take,
    List.length_drop]
  omega

theorem mem_insertAt_self {α : Type} (xs : List α) (i : Nat) (x : α) :
    x ∈ insertAt xs i x := by
  unfold insertAt
  exact List.mem_append.mpr (Or.inr (List.mem_cons_self _ _))

theorem fq_insert_length {Vec D : Type} (lt : D → D → Bool)
    (q : List (Vec × D)) (toV : Vec) (d : D) :
    (FurthestQueue.insert lt q toV d).length = q.length + 1 := by
  unfold FurthestQueue.insert
  have hle : search_sorted lt (q.map Prod.snd) d ≤ q.length := by
    have := search_sorted_le lt (q.map Prod.snd) d
    rwa [List.length_map] at this
  rw [insertAt_length _ _ _ hle]

theorem mem_fq_insert_take {Vec D : Type} (lt : D → D → Bool)
    (q : List (Vec × D)) (toV : Vec) (d : D) (cap : Nat)
    (hlen : q.length < cap) :
    toV ∈ ((FurthestQueue.insert lt q toV d).take cap).map Prod.fst := by
  rw [List.take_of_length_le (by rw [fq_insert_length]; omega)]
  refine List.mem_map.mpr ⟨(toV, d), ?_, rfl⟩
  exact mem_insertAt_self _ _ _

theorem backLoop_storedLinks_other {Q Vec D : Type} [DecidableEq Vec]
    (st : Store Q Vec D) (q : Vec) (lc maxL : Nat) :
    ∀ (nbrs : List (Vec × D)) (g g' : GraphMem Vec D)
      (tr : List (Call Q Vec D)),
      backLoop st q lc maxL g nbrs = some (g', tr) →
      ∀ (b : Vec) (lc' : Nat), lc' ≠ lc ∨ b ∉ nbrs.map Prod.fst →
        g'.storedLinks b lc' = g.storedLinks b lc' := by
  intro nbrs
  induction nbrs with
  | nil =>
    intro g g' tr h b lc' hcond
    rw [backLoop, tpure_eq_some] at h
    obtain ⟨h1, -⟩ := h
    subst h1
    rfl
  | cons hd0 rest ih =>
    intro g g' tr h b lc' hcond
    obtain ⟨n, nq⟩ := hd0
    rw [backLoop, tbind_eq_some] at h
    obtain ⟨links, t1, t2, -, h, -⟩ := h
    rw [tbind_eq_some] at h
    obtain ⟨links', t3, t4, hins, h, -⟩ := h
    rw [tbind_eq_some] at h
    obtain ⟨g1, t5, t6, hset, h, -⟩ := h
    have hbn : lc' ≠ lc ∨ b ≠ n := by
      rcases hcond with hlc | hb
      · exact Or.inl hlc
      · exact Or.inr fun hbe => hb (by rw [hbe]; simp)
    have hrest : lc' ≠ lc ∨ b ∉ rest.map Prod.fst := by
      rcases hcond with hlc | hb
      · exact Or.inl hlc
      · exact Or.inr fun hbe => hb (by simp [hbe])
    rw [ih g1 g' t6 h b lc' hrest]
    exact storedLinks_set_links_other hset (by tauto)

theorem backLoop_target {Q Vec D : Type} [DecidableEq Vec]
    (st : Store Q Vec D) (q : Vec) (lc maxL : Nat) :
    ∀ (nbrs : List (Vec × D)) (g g' : GraphMem Vec D)
      (tr : List (Call Q Vec D)),
      backLoop st q lc maxL g nbrs = some (g', tr) →
      (nbrs.map Prod.fst).Nodup →
      ∀ n d, (n, d) ∈ nbrs →
      ∃ prev, g.storedLinks n lc = some prev ∧
        g'.storedLinks n lc =
          some ((FurthestQueue.insert st.lessThan prev q d).take maxL) := by
  intro nbrs
  induction nbrs with
  | nil =>
    intro g g' tr h hnd n d hmem
    cases hmem
  | cons hd0 rest ih =>
    intro g g' tr h hnd n d hmem
    obtain ⟨n0, d0⟩ := hd0
    rw [backLoop, tbind_eq_some] at h
    obtain ⟨links, t1, t2, hgl, h, -⟩ := h
    rw [tbind_eq_some] at h
    obtain ⟨links', t3, t4, hins, h, -⟩ := h
    rw [tbind_eq_some] at h
    obtain ⟨g1, t5, t6, hset, h, -⟩ := h
    obtain ⟨hstored, -⟩ := get_links_eq_some hgl
    have hins' : links' = FurthestQueue.insert st.lessThan links q d0 := by
      unfold FurthestQueue.insertT at hins
      injection hins with h1
      injection h1 with h2 h3
      exact h2.symm
    rw [List.map_cons, List.nodup_cons] at hnd
    obtain ⟨hn0, hndrest⟩ := hnd
    rcases List.mem_cons.mp hmem with heq | hmem'
    · injection heq with he1 he2
      subst he1
      subst he2
      refine ⟨links, hstored, ?_⟩
      rw [backLoop_storedLinks_other st q lc maxL rest g1 g' t6 h n lc
        (Or.inr hn0)]
      rw [storedLinks_set_links_self hset]
      rw [hins']
      rfl
    · have hne : n ≠ n0 := by
        intro hc
        exact hn0 (by rw [← hc]; exact List.mem_map.mpr ⟨(n, d), hmem', rfl⟩)
      obtain ⟨prev, hp1, hp2⟩ := ih g1 g' t6 h hndrest n d hmem'
      refine ⟨prev, ?_, hp2⟩
      rw [← hp1]
      exact (storedLinks_set_links_other hset (Or.inl hne)).symm

theorem connect_bidir_spec {Q Vec D : Type} [DecidableEq Vec]
    {st : Store Q Vec D} {p : Params} {g g' : GraphMem Vec D} {q : Vec}
    {nbrs : List (Vec × D)} {lc : Nat} {tr : List (Call Q Vec D)}
    (h : connect_bidir st p g q nbrs lc = some (g', tr)) :
    g'.storedLinks q lc = some (nbrs.take p.M) ∧
    (∀ (b : Vec) (lc' : Nat), lc' ≠ lc →
      g'.storedLinks b lc' = g.storedLinks b lc') ∧
    (((nbrs.take p.M).map Prod.fst).Nodup →
      ∀ n d, (n, d) ∈ nbrs.take p.M → n ≠ q →
      ∃ prev, g.storedLinks n lc = some prev ∧
        g'.storedLinks n lc =
          some ((FurthestQueue.insert st.lessThan prev q d).take
            (if lc = 0 then p.Mmax0 else p.Mmax))) := by
  unfold connect_bidir at h
  rw [tbind_eq_some] at h
  obtain ⟨g1, t1, t2, hback, hset, -⟩ := h
  refine ⟨?_, ?_, ?_⟩
  · exact storedLinks_set_links_self hset
  · intro b lc' hne
    rw [storedLinks_set_links_other hset (Or.inr hne)]
    exact backLoop_storedLinks_other st q lc _ _ g g1 t1 hback b lc'
      (Or.inl hne)
  · intro hnd n d hmem hne
    obtain ⟨prev, hp1, hp2⟩ := backLoop_target st q lc _ _ g g1 t1 hback
      hnd n d hmem
    refine ⟨prev, hp1, ?_⟩
    rw [storedLinks_set_links_other hset (Or.inl hne)]
    exact hp2

theorem connectLoop_spec {Q Vec D : Type} [DecidableEq Vec]
    (st : Store Q Vec D) (p : Params) (q : Vec) :
    ∀ (links : List (List (Vec × D))) (g g' : GraphMem Vec D)
      (cnt lc0 : Nat) (tr : List (Call Q Vec D)),
      connectLoop st p q g links cnt lc0 = some (g', tr) →
      (∀ (b : Vec) (lc' : Nat), lc' < lc0 →
        g'.storedLinks b lc' = g.storedLinks b lc') ∧
      (∀ k nbrs, links.get? k = some nbrs → k < cnt →
        g'.storedLinks q (lc0 + k) = some (nbrs.take p.M) ∧
        (((nbrs.take p.M).map Prod.fst).Nodup →
          ∀ n d, (n, d) ∈ nbrs.take p.M → n ≠ q →
          ∃ prev, g.storedLinks n (lc0 + k) = some prev ∧
            g'.storedLinks n (lc0 + k) =
              some ((FurthestQueue.insert st.lessThan prev q d).take
                (if lc0 + k = 0 then p.Mmax0 else p.Mmax)))) := by
  intro links
  induction links with
  | nil =>
    intro g g' cnt lc0 tr h
    rw [connectLoop, tpure_eq_some] at h
    obtain ⟨h1, -⟩ := h
    subst h1
    refine ⟨fun b lc' _ => rfl, ?_⟩
    intro k nbrs hk
    rw [List.get?_eq_getElem?] at hk
    simp at hk
  | cons nbrs0 rest ih =>
    intro g g' cnt lc0 tr h
    cases cnt with
    | zero =>
      rw [connectLoop, tpure_eq_some] at h
      obtain ⟨h1, -⟩ := h
      subst h1
      exact ⟨fun b lc' _ => rfl, fun k nbrs hk hcnt => absurd hcnt (by omega)⟩
    | succ cnt =>
      rw [connectLoop, tbind_eq_some] at h
      obtain ⟨g1, t1, t2, hcb, hrest, -⟩ := h
      obtain ⟨hcb1, hcb2, hcb3⟩ := connect_bidir_spec hcb
      obtain ⟨ih1, ih2⟩ := ih g1 g' cnt (lc0 + 1) t2 hrest
      constructor
      · intro b lc' hlt
        rw [ih1 b lc' (by omega), hcb2 b lc' (by omega)]
      · intro k nbrs hk hcnt
        cases k with
        | zero =>
          rw [List.get?_eq_getElem?] at hk
          simp only [List.getElem?_cons_zero, Option.some.injEq] at hk
          subst hk
          constructor
          · rw [Nat.add_zero, ih1 q lc0 (by omega)]
            exact hcb1
          · intro hnd n d hmem hne
            obtain ⟨prev, hp1, hp2⟩ := hcb3 hnd n d hmem hne
            refine ⟨prev, ?_, ?_⟩
            · rw [Nat.add_zero]
              exact hp1
            · rw [Nat.add_zero, ih1 n lc0 (by omega)]
              exact hp2
        | succ k =>
          have hk' : rest.get? k = some nbrs := by
            rw [List.get?_eq_getElem?] at hk ⊢
            simpa using hk
          have harith : lc0 + (k + 1) = (lc0 + 1) + k := by omega
          obtain ⟨ihA, ihB⟩ := ih2 k nbrs hk' (by omega)
          constructor
          · rw [harith]
            exact ihA
          · intro hnd n d hmem hne
            obtain ⟨prev, hp1, hp2⟩ := ihB hnd n d hmem hne
            refine ⟨prev, ?_, ?_⟩
            · rw [harith, ← hp1]
              exact (hcb2 n ((lc0 + 1) + k) (by omega)).symm
            · rw [harith]
              exact hp2

theorem storedLinks_set_entry_point {Q Vec D : Type} [DecidableEq Vec]
    {g g' : GraphMem Vec D} {ep : EntryPoint Vec} {tr : List (Call Q Vec D)}
    (h : GraphMem.set_entry_point g ep = some (g', tr)) (b : Vec) (lc : Nat)
    (q0 : List (Vec × D)) (hq : g.storedLinks b lc = some q0) :
    g'.storedLinks b lc = some q0 := by
  obtain ⟨-, hlayers, -⟩ := set_entry_point_fields h
  unfold GraphMem.storedLinks at hq ⊢
  cases hl : g.layers.get? lc with
  | none => rw [hl] at hq; cases hq
  | some layer =>
    rw [hl] at hq
    have hlt : lc < g.layers.length := by
      by_contra hc
      rw [List.get?_eq_getElem?, List.getElem?_eq_none (by omega)] at hl
      cases hl
    rw [hlayers, List.get?_eq_getElem?, List.getElem?_append_left hlt,
      ← List.get?_eq_getElem?, hl]
    exact hq

/-- Claim C1 (amended): after a successful
`insert_from_search_results(v, links)` drawing level `l`, for every layer
`lc < min(l + 1, links.length)` with trimmed neighbor set `N`:
every `n ∈ N` appears in the links now stored under `v` at `lc` (which are
exactly `N`); and, provided the trimmed neighbor vectors are distinct and
`n ≠ v`, the links stored under `n` become the previous queue with `v`
inserted and then trimmed to the layer cap — so `v` appears in
`get_links(n, lc)` whenever `n`'s previous queue was below the cap, but is
trimmed away otherwise (see the counterexample). -/
theorem hawk_C1_bidirectional_amended {Q Vec D : Type} [DecidableEq Vec]
    (st : Store Q Vec D) (s s1 : HawkSearcher Vec D) (v : Vec)
    (links : List (List (Vec × D))) (lvl : Nat) (tr : List (Call Q Vec D))
    (hrun : insert_from_search_results st s v links = some ((s1, lvl), tr))
    (lc : Nat) (hlc : lc < lvl + 1) (nbrs : List (Vec × D))
    (hnbrs : links.get? lc = some nbrs) :
    s1.graph.storedLinks v lc = some (nbrs.take s.params.M) ∧
    (((nbrs.take s.params.M).map Prod.fst).Nodup →
      ∀ n d, (n, d) ∈ nbrs.take s.params.M → n ≠ v →
      ∃ prev, s.graph.storedLinks n lc = some prev ∧
        s1.graph.storedLinks n lc =
          some ((FurthestQueue.insert st.lessThan prev v d).take
            (capAt s.params lc)) ∧
        (prev.length < capAt s.params lc →
          v ∈ ((FurthestQueue.insert st.lessThan prev v d).take
            (capAt s.params lc)).map Prod.fst)) := by
  simp only [insert_from_search_results, HawkSearcher.select_layer] at hrun
  rw [tbind_eq_some] at hrun
  obtain ⟨g1, t1, t2, hconn, hbranch, -⟩ := hrun
  obtain ⟨hcl1, hcl2⟩ := connectLoop_spec st s.params v links s.graph g1
    (s.rngStream s.rngPos + 1) 0 t1 hconn
  by_cases hcnd : links.length ≤ s.rngStream s.rngPos
  · rw [if_pos hcnd, tbind_eq_some] at hbranch
    obtain ⟨g2, t3, t4, hset, hpure, -⟩ := hbranch
    rw [tpure_eq_some] at hpure
    obtain ⟨h1, -⟩ := hpure
    injection h1 with h2 h3
    subst h3
    obtain ⟨hA, hB⟩ := hcl2 lc nbrs hnbrs (by omega)
    simp only [Nat.zero_add] at hA hB
    have hg : s1.graph = g2 := by rw [← h2]
    constructor
    · rw [hg]
      exact storedLinks_set_entry_point hset v lc _ hA
    · intro hnd n d hmem hne
      obtain ⟨prev, hp1, hp2⟩ := hB hnd n d hmem hne
      refine ⟨prev, hp1, ?_, ?_⟩
      · rw [hg]
        exact storedLinks_set_entry_point hset n lc _ hp2
      · intro hlen
        exact mem_fq_insert_take st.lessThan prev v d _ hlen
  · rw [if_neg hcnd, tpure_eq_some] at hbranch
    obtain ⟨h1, -⟩ := hbranch
    injection h1 with h2 h3
    subst h3
    obtain ⟨hA, hB⟩ := hcl2 lc nbrs hnbrs (by omega)
    simp only [Nat.zero_add] at hA hB
    have hg : s1.graph = g1 := by rw [← h2]
    constructor
    · rw [hg]
      exact hA
    · intro hnd n d hmem hne
      obtain ⟨prev, hp1, hp2⟩ := hB hnd n d hmem hne
      refine ⟨prev, hp1, ?_, ?_⟩
      · rw [hg]
        exact hp2
      · intro hlen
        exact mem_fq_insert_take st.lessThan prev v d _ hlen

/-- The full back-link queue used by the C1 counterexample: 32 entries, all
strictly closer to the neighbor than the new vector will be. -/
def q32C1 : List (Nat × Nat) := List.replicate 32 (1, 0)

/-- Counterexample searcher: vector `7` is the entry point of a one-layer
graph and already has a full (32-entry) neighbor queue. -/
def sC1 : HawkSearcher Nat Nat :=
  { params := defaultParams,
    graph := { entry_point := some ⟨7, 1⟩, layers := [[(7, q32C1)]] },
    rngStream := fun _ => 0, rngPos := 0 }

theorem hawk_C1_counterexample :
    ∃ s1 tr, insert_from_search_results storeNat sC1 9 [[(7, 5)]] =
        some ((s1, 0), tr) ∧
      s1.graph.storedLinks 9 0 = some [(7, 5)] ∧
      s1.graph.storedLinks 7 0 = some q32C1 ∧
      (9 : Nat) ∉ q32C1.map Prod.fst ∧
      (0 : Nat) < min (0 + 1) [[((7 : Nat), (5 : Nat))]].length ∧
      ((7 : Nat), (5 : Nat)) ∈ ([(7, 5)] : List (Nat × Nat)).take 32 := by
  have hs : (insert_from_search_results storeNat sC1 9
      [[(7, 5)]]).isSome = true := by rfl
  obtain ⟨⟨⟨s1, lvl⟩, tr⟩, h⟩ := Option.isSome_iff_exists.mp hs
  have hproj : (insert_from_search_results storeNat sC1 9 [[(7, 5)]]).map
      (fun r => (r.1.2, r.1.1.graph.storedLinks 9 0,
        r.1.1.graph.storedLinks 7 0)) =
      some (0, some [(7, 5)], some q32C1) := by rfl
  rw [h] at hproj
  simp only [Option.map_some', Option.some.injEq, Prod.mk.injEq] at hproj
  obtain ⟨hl, h9, h7⟩ := hproj
  subst hl
  exact ⟨s1, tr, h, h9, h7, by decide, by decide, by decide⟩

/-- Witness searcher for the amended C1: the neighbor's queue is below the
cap, so the back link to the new vector survives the trim. -/
def sC1w : HawkSearcher Nat Nat :=
  { params := defaultParams,
    graph := { entry_point := some ⟨5, 1⟩,
               layers := [[(5, [(6, 1)]), (6, [(5, 1)])]] },
    rngStream := fun _ => 0, rngPos := 0 }

theorem hawk_C1_bidirectional_amended_witness :
    ∃ s1 lvl tr qn,
      insert_from_search_results storeNat sC1w 9 [[(5, 3)]] =
        some ((s1, lvl), tr) ∧
      s1.graph.storedLinks 9 0 = some [(5, 3)] ∧
      s1.graph.storedLinks 5 0 = some qn ∧ (9 : Nat) ∈ qn.map Prod.fst := by
  have hs : (insert_from_search_results storeNat sC1w 9
      [[(5, 3)]]).isSome = true := by rfl
  obtain ⟨⟨⟨s1, lvl⟩, tr⟩, h⟩ := Option.isSome_iff_exists.mp hs
  obtain ⟨hA, hB⟩ := hawk_C1_bidirectional_amended storeNat sC1w s1 9
    [[(5, 3)]] lvl tr h 0 (by omega) [(5, 3)] rfl
  obtain ⟨prev, hp1, hp2, hp3⟩ := hB (by decide) 5 3 (by decide) (by decide)
  have hprev : prev = [(6, 1)] := by
    have heval : sC1w.graph.storedLinks 5 0 = some [(6, 1)] := rfl
    rw [heval] at hp1
    injection hp1 with h1
    exact h1.symm
  subst hprev
  exact ⟨s1, lvl, tr, _, h, hA, hp2, hp3 (by decide)⟩
